import Mathlib

/-!
Verification of `backend/indexing/iteminfo/utils.go`.

A shallow embedding of `ResolveSymlinks`, `FileInfo.SortItems` and
`ExtendedFileInfo.DetectSubtitles` together with the library routines they call
(`path/filepath`, `strconv`, `strings`, `sort`), and the properties proved about them.

Go strings are modelled by Lean strings; the filesystem is a record of the three
primitives the resolver calls, each a function of the path that either fails with the
text of its error or succeeds.
-/

namespace iteminfo

/-! ## `path/filepath` on a slash-separated platform -/

/-- Cut a path at every separator `/`; the result is never empty. -/
def splitSlash : List Char → List (List Char)
  | [] => [[]]
  | c :: cs =>
    if c = '/' then [] :: splitSlash cs
    else
      match splitSlash cs with
      | [] => [[c]]
      | e :: es => (c :: e) :: es

/-- One element of `filepath.Clean`'s scan over the elements of a path. `out` holds the
elements written so far, last one first. Empty elements and `.` are skipped; `..` removes
the last element written when there is one to remove, is dropped at the root, and is kept
in front of a path that is not rooted. -/
def cleanElem (rooted : Bool) (out : List (List Char)) (e : List Char) : List (List Char) :=
  if e = [] then out
  else if e = ['.'] then out
  else if e = ['.', '.'] then
    match out with
    | [] => if rooted then [] else [e]
    | top :: rest => if top = ['.', '.'] then e :: top :: rest else rest
  else e :: out

/-- Elements written with `/` between them. -/
def joinSlash : List (List Char) → List Char
  | [] => []
  | [e] => e
  | e :: es => e ++ '/' :: joinSlash es

/-- Go `filepath.Clean`: the shortest path equivalent to `path` by purely lexical
processing. -/
def Clean (path : String) : String :=
  match path.data with
  | [] => "."
  | c :: cs =>
    let rooted : Bool := c = '/'
    let out := ((splitSlash (c :: cs)).foldl (cleanElem rooted) []).reverse
    if rooted then ⟨'/' :: joinSlash out⟩
    else if out = [] then "." else ⟨joinSlash out⟩

/-- The part of a path up to and including its last separator (empty when there is
none). -/
def dirPart : List Char → List Char
  | [] => []
  | c :: cs =>
    if '/' ∈ cs then c :: dirPart cs
    else if c = '/' then [c] else []

/-- Go `filepath.Dir`: all but the last element of `path`, cleaned. -/
def Dir (path : String) : String :=
  Clean ⟨dirPart path.data⟩

/-- Go `filepath.Join`: leading empty elements are ignored, the rest is joined with
separators and cleaned; the empty string when every element is empty. -/
def Join : List String → String
  | [] => ""
  | e :: es =>
    if e = "" then Join es
    else Clean ⟨joinSlash ((e :: es).map String.data)⟩

/-- Go `filepath.IsAbs` on a slash-separated platform. -/
def IsAbs (path : String) : Bool :=
  match path.data with
  | c :: _ => c = '/'
  | [] => false

/-! ## The filesystem -/

/-- The bit `os.ModeSymlink` of a file mode. -/
def ModeSymlink : Nat := 2 ^ 27

/-- The bit `os.ModeDir` of a file mode. -/
def ModeDir : Nat := 2 ^ 31

/-- What `os.Lstat` reports about an entry (`os.FileInfo`). -/
structure OsFileInfo where
  Name : String
  Size : Int
  Mode : Nat
  deriving DecidableEq

/-- The filesystem primitives `ResolveSymlinks` calls. An error is the text printed for
it by `%v`. -/
structure FileSystem where
  EvalSymlinks : String → Except String String
  Lstat : String → Except String OsFileInfo
  Readlink : String → Except String String

/-- A call made by the resolver, in the order made. `seenLookup` is the lookup of the
current path in the map `seen` that opens every iteration of the fallback loop. -/
inductive Call where
  | evalSymlinks (path : String)
  | lstat (path : String)
  | readlink (path : String)
  | seenLookup (path : String)
  deriving DecidableEq

/-- The three values `ResolveSymlinks` returns; `err = none` is Go's `nil` error. -/
structure Resolved where
  path : String
  isDir : Bool
  err : Option String
  deriving DecidableEq

/-- The loop `for i := 0; i < 64; i++` of `ResolveSymlinks`, with `n = 64 - i` iterations
left, the map `seen` as the list of its keys, and `path` the original input. Returns the
values returned and the calls made. -/
def fallbackLoop (fs : FileSystem) (IsDirectory : OsFileInfo → Bool) (path : String) :
    Nat → List String → String → Resolved × List Call
  | 0, _, current =>
    (⟨current, false, some ("too many symlink hops resolving: " ++ path)⟩, [])
  | n + 1, seen, current =>
    if current ∈ seen then
      (⟨current, false, some ("symlink cycle detected at: " ++ current)⟩,
        [Call.seenLookup current])
    else
      match fs.Lstat current with
      | .error lerr =>
        (⟨current, false, some ("could not stat path: " ++ current ++ ", " ++ lerr)⟩,
          [Call.seenLookup current, Call.lstat current])
      | .ok info =>
        if info.Mode &&& ModeSymlink = 0 then
          (⟨current, IsDirectory info, none⟩, [Call.seenLookup current, Call.lstat current])
        else
          match fs.Readlink current with
          | .error rerr =>
            (⟨current, false, some ("could not read symlink: " ++ current ++ ", " ++ rerr)⟩,
              [Call.seenLookup current, Call.lstat current, Call.readlink current])
          | .ok target =>
            let r := fallbackLoop fs IsDirectory path n (current :: seen)
              (Join [Dir current, target])
            (r.1, Call.seenLookup current :: Call.lstat current :: Call.readlink current :: r.2)

/-- Go `ResolveSymlinks`, with the calls it makes. `IsDirectory` is the classification
function of the package, which is applied to an `os.FileInfo`. -/
def ResolveSymlinks (fs : FileSystem) (IsDirectory : OsFileInfo → Bool) (path : String) :
    Resolved × List Call :=
  match fs.EvalSymlinks path with
  | .ok resolved =>
    match fs.Lstat resolved with
    | .error statErr =>
      (⟨resolved, false,
          some ("could not stat resolved path: " ++ resolved ++ ", " ++ statErr)⟩,
        [Call.evalSymlinks path, Call.lstat resolved])
    | .ok info =>
      (⟨resolved, IsDirectory info, none⟩, [Call.evalSymlinks path, Call.lstat resolved])
  | .error _ =>
    let r := fallbackLoop fs IsDirectory path 64 [] path
    (r.1, Call.evalSymlinks path :: r.2)

/-- The path `p` is a readable symlink and `q` is the path the fallback loop continues
with after it: `p` is lstat-able with the symlink bit set, its target can be read, and `q`
is the target joined to the directory of `p`. -/
def SymlinkHop (fs : FileSystem) (p q : String) : Prop :=
  ∃ info target, fs.Lstat p = .ok info ∧ info.Mode &&& ModeSymlink ≠ 0 ∧
    fs.Readlink p = .ok target ∧ q = Join [Dir p, target]

/-- The path `p` is lstat-able with result `info` and is not a symlink. -/
def NotSymlink (fs : FileSystem) (p : String) (info : OsFileInfo) : Prop :=
  fs.Lstat p = .ok info ∧ info.Mode &&& ModeSymlink = 0

/-- Number of iterations of the fallback loop started in a list of calls. -/
def iterations (calls : List Call) : Nat :=
  (calls.filter fun c => match c with | Call.seenLookup _ => true | _ => false).length

/-- Number of calls of `os.Lstat` in a list of calls. -/
def lstatCalls (calls : List Call) : Nat :=
  (calls.filter fun c => match c with | Call.lstat _ => true | _ => false).length

/-- Number of calls of `os.Readlink` in a list of calls. -/
def readlinkCalls (calls : List Call) : Nat :=
  (calls.filter fun c => match c with | Call.readlink _ => true | _ => false).length

/-! ## `FileInfo.SortItems` -/

/-- Modelled from the spec: the declaration of the entry type is not among the sources; an
entry has a name, and further fields that the comparator never reads. -/
structure ItemInfo where
  Name : String
  Size : Int
  ModTime : Int
  FileType : String
  deriving DecidableEq

/-- Modelled from the spec: the declaration of `FileInfo` is not among the sources; it
holds an ordered sequence of folder entries and an ordered sequence of file entries. -/
structure FileInfo where
  Path : String
  Folders : List ItemInfo
  Files : List ItemInfo
  deriving DecidableEq

/-- Go `strings.Split(name, ".")[0]`: the part of `name` before its first `.`, all of it
when it has none. -/
def nameWithoutExt (name : String) : String :=
  ⟨name.data.takeWhile fun c => c != '.'⟩

/-- Value of a run of decimal digits read after the value `acc`, `none` at the first
character that is not one of `0`..`9`. -/
def parseDigits : List Char → Nat → Option Nat
  | [], acc => some acc
  | c :: cs, acc =>
    if 48 ≤ c.toNat ∧ c.toNat ≤ 57 then parseDigits cs (acc * 10 + (c.toNat - 48))
    else none

/-- Go `strconv.Atoi` with a 64-bit `int`: an optional sign and at least one decimal
digit, of value between `-2^63` and `2^63 - 1`; `none` is a non-nil error. -/
def Atoi (s : String) : Option Int :=
  match s.data with
  | [] => none
  | c :: cs =>
    let neg : Bool := c = '-'
    let digits := if c = '-' ∨ c = '+' then cs else c :: cs
    if digits = [] then none
    else
      match parseDigits digits 0 with
      | none => none
      | some n =>
        if neg then (if n ≤ 2 ^ 63 then some (-(n : Int)) else none)
        else (if n < 2 ^ 63 then some (n : Int) else none)

/-- Go `strings.ToLower`: every code point mapped by `unicode.ToLower`, whose table is
the argument `lowerRune`. -/
def ToLower (lowerRune : Char → Char) (s : String) : String :=
  ⟨s.data.map lowerRune⟩

/-- The table of `unicode.ToLower` on the ASCII range. -/
def asciiLower (c : Char) : Char :=
  if 65 ≤ c.toNat ∧ c.toNat ≤ 90 then Char.ofNat (c.toNat + 32) else c

/-- A lower-casing table that is the one of `unicode.ToLower` on ASCII. -/
def LowersAscii (lowerRune : Char → Char) : Prop :=
  ∀ c : Char, c.toNat < 128 → lowerRune c = asciiLower c

/-- Go's `<` on strings, which compares byte by byte; on well-formed UTF-8 that is the
lexicographic order of the code points. -/
def stringLess : List Char → List Char → Bool
  | [], [] => false
  | [], _ :: _ => true
  | _ :: _, [] => false
  | a :: as, b :: bs =>
    if a.toNat < b.toNat then true
    else if b.toNat < a.toNat then false
    else stringLess as bs

/-- The function `less` that `SortItems` passes to `sort.Slice`, on the two entries that
stand at the indices it is called with. -/
def less (lowerRune : Char → Char) (a b : ItemInfo) : Bool :=
  match Atoi (nameWithoutExt a.Name), Atoi (nameWithoutExt b.Name) with
  | some numI, some numJ => decide (numI < numJ)
  | _, _ => stringLess (ToLower lowerRune a.Name).data (ToLower lowerRune b.Name).data

/-- Go `FileInfo.SortItems`. `sortSlice` is the library routine `sort.Slice`. -/
def SortItems (sortSlice : List ItemInfo → (ItemInfo → ItemInfo → Bool) → List ItemInfo)
    (lowerRune : Char → Char) (info : FileInfo) : FileInfo :=
  { info with
    Folders := sortSlice info.Folders (less lowerRune)
    Files := sortSlice info.Files (less lowerRune) }

/-- The requirement of `sort.Slice` on its `less`, over the elements of the slice: a
strict weak ordering. -/
def StrictWeakOn (lt : ItemInfo → ItemInfo → Bool) (xs : List ItemInfo) : Prop :=
  (∀ a ∈ xs, lt a a = false) ∧
  (∀ a ∈ xs, ∀ b ∈ xs, ∀ c ∈ xs, lt a b = true → lt b c = true → lt a c = true) ∧
  (∀ a ∈ xs, ∀ b ∈ xs, ∀ c ∈ xs, lt a b = false → lt b c = false → lt a c = false)

/-- What `sort.Slice` is documented to do: it only permutes the slice, and when `less`
meets the requirement above no element is less than one that stands before it. -/
def SortSliceContract
    (sortSlice : List ItemInfo → (ItemInfo → ItemInfo → Bool) → List ItemInfo) : Prop :=
  ∀ xs lt, (sortSlice xs lt).Perm xs ∧
    (StrictWeakOn lt xs → (sortSlice xs lt).Pairwise fun a b => lt b a = false)

/-- The inner loop of Go's `insertionSort_func`: the element `x` is swapped towards
the front while it is less than its predecessor. `rev` is the part before `x`, last
element first, and so is the result. -/
def insertBack (lt : ItemInfo → ItemInfo → Bool) (x : ItemInfo) : List ItemInfo → List ItemInfo
  | [] => [x]
  | y :: rev => if lt x y then y :: insertBack lt x rev else x :: y :: rev

/-- Go's `insertionSort_func`, which is all that `sort.Slice` runs on a slice of at
most 12 elements. -/
def insertionSort (xs : List ItemInfo) (lt : ItemInfo → ItemInfo → Bool) : List ItemInfo :=
  (xs.foldl (fun rev x => insertBack lt x rev) []).reverse

/-- An entry with the given name. -/
def named (name : String) : ItemInfo := ⟨name, 0, 0, ""⟩

/-- The four names of the mixed example. -/
def mixedNames : List String := ["b.txt", "A.txt", "10.txt", "2.txt"]

/-- The order of two of the four names of the mixed example in a sorted sequence: the
second is not less than the first. -/
def mixedOrder (a b : String) : Prop :=
  a ∈ mixedNames ∧ b ∈ mixedNames ∧ less asciiLower (named b) (named a) = false

/-! ## Filesystems to run the resolver on -/

/-- A classification that reads the directory bit of the mode. -/
def dirBit (info : OsFileInfo) : Bool :=
  info.Mode &&& ModeDir != 0

/-- Mode of a symlink. -/
def linkMode : Nat := ModeSymlink + 0o777

/-- The two links of `TestResolveSymlinks_Cycle`, `/tmp/a -> b` and `/tmp/b -> a`;
canonicalization fails on both. -/
def fsCycle : FileSystem where
  EvalSymlinks := fun _ => .error "EvalSymlinks: too many links"
  Lstat := fun p =>
    if p = "/tmp/a" then .ok ⟨"a", 1, linkMode⟩
    else if p = "/tmp/b" then .ok ⟨"b", 1, linkMode⟩
    else .error "no such file or directory"
  Readlink := fun p =>
    if p = "/tmp/a" then .ok "b"
    else if p = "/tmp/b" then .ok "a"
    else .error "invalid argument"

/-- The successive paths of the fallback loop on `fsCycle` from `/tmp/a`. -/
def cyclePath (i : Nat) : String :=
  if i % 2 = 0 then "/tmp/a" else "/tmp/b"

/-- The entries of `TestResolveSymlinks_File` and `TestResolveSymlinks_Directory`: a
regular file `file.txt`, a directory `sub`, and the links `file.link -> file.txt` and
`dir.link -> sub`, all in `/tmp`. -/
def fsTest : FileSystem where
  EvalSymlinks := fun p =>
    if p = "/tmp/file.link" ∨ p = "/tmp/file.txt" then .ok "/tmp/file.txt"
    else if p = "/tmp/dir.link" ∨ p = "/tmp/sub" then .ok "/tmp/sub"
    else .error "no such file or directory"
  Lstat := fun p =>
    if p = "/tmp/file.txt" then .ok ⟨"file.txt", 5, 0o644⟩
    else if p = "/tmp/sub" then .ok ⟨"sub", 4096, ModeDir + 0o755⟩
    else if p = "/tmp/file.link" then .ok ⟨"file.link", 8, linkMode⟩
    else if p = "/tmp/dir.link" then .ok ⟨"dir.link", 3, linkMode⟩
    else .error "no such file or directory"
  Readlink := fun p =>
    if p = "/tmp/file.link" then .ok "file.txt"
    else if p = "/tmp/dir.link" then .ok "sub"
    else .error "invalid argument"

/-- The entries of `fsTest` on a platform whose canonicalization fails. -/
def fsTestNoEval : FileSystem :=
  { fsTest with EvalSymlinks := fun _ => .error "permission denied" }

/-- A link with an absolute target that does not exist, `/t/a -> /x`, next to a regular
file `/t/x`. -/
def fsAbsolute : FileSystem where
  EvalSymlinks := fun p =>
    if p = "/t/x" then .ok "/t/x" else .error "no such file or directory"
  Lstat := fun p =>
    if p = "/t/a" then .ok ⟨"a", 2, linkMode⟩
    else if p = "/t/x" then .ok ⟨"x", 5, 0o644⟩
    else .error "no such file or directory"
  Readlink := fun p =>
    if p = "/t/a" then .ok "/x" else .error "invalid argument"

/-- In `/t`: a dangling link `l -> nowhere`, a directory `y` with a regular file `f`, a
link `x -> y`, and a link `a -> l/../x/f`. Canonicalization of `/t/a` fails at `l`;
`/t/x/f` is the file `/t/y/f`. -/
def fsDotDot : FileSystem where
  EvalSymlinks := fun p =>
    if p = "/t/x/f" ∨ p = "/t/y/f" then .ok "/t/y/f"
    else if p = "/t/x" ∨ p = "/t/y" then .ok "/t/y"
    else .error "no such file or directory"
  Lstat := fun p =>
    if p = "/t/a" then .ok ⟨"a", 8, linkMode⟩
    else if p = "/t/l" then .ok ⟨"l", 7, linkMode⟩
    else if p = "/t/x" then .ok ⟨"x", 1, linkMode⟩
    else if p = "/t/y" then .ok ⟨"y", 4096, ModeDir + 0o755⟩
    else if p = "/t/x/f" ∨ p = "/t/y/f" then .ok ⟨"f", 5, 0o644⟩
    else .error "no such file or directory"
  Readlink := fun p =>
    if p = "/t/a" then .ok "l/../x/f"
    else if p = "/t/l" then .ok "nowhere"
    else if p = "/t/x" then .ok "y"
    else .error "invalid argument"

/-- The characters of `x/` written `i` times and then `l`. -/
def chainChars : Nat → List Char
  | 0 => ['l']
  | i + 1 => 'x' :: '/' :: chainChars i

/-- The path `/x/x/.../x/l` with `i` directories `x`. -/
def chainPath (i : Nat) : String :=
  ⟨'/' :: chainChars i⟩

/-- Nested directories `x`, each with a link `l -> x/l` to the link one level down; at
depth `stop` the entry `l` is a regular file. -/
def fsChain (stop : Nat) : FileSystem where
  EvalSymlinks := fun _ => .error "EvalSymlinks: too many links"
  Lstat := fun p =>
    if p = chainPath stop then .ok ⟨"l", 5, 0o644⟩ else .ok ⟨"l", 3, linkMode⟩
  Readlink := fun p =>
    if p = chainPath stop then .error "invalid argument" else .ok "x/l"

/-! ## The routine `sort.Slice` (pattern-defeating quicksort, Go 1.19 and later) -/

/-- The call `data.Swap(i, j)`. -/
def swapAt (data : List ItemInfo) (i j : Nat) : List ItemInfo :=
  match data.get? i, data.get? j with
  | some x, some y => (data.set i y).set j x
  | _, _ => data

/-- The call `data.Less(i, j)`. -/
def lessAt (lt : ItemInfo → ItemInfo → Bool) (data : List ItemInfo) (i j : Nat) : Bool :=
  match data.get? i, data.get? j with
  | some x, some y => lt x y
  | _, _ => false

/-- Go `insertionSort_func` on `data[a:b]`. -/
def insertionSortRange (lt : ItemInfo → ItemInfo → Bool) (data : List ItemInfo) (a b : Nat) :
    List ItemInfo :=
  data.take a ++ insertionSort ((data.drop a).take (b - a)) lt ++ data.drop b

/-- Go `reverseRange_func` on `data[a:b]`. -/
def reverseRange (data : List ItemInfo) (a b : Nat) : List ItemInfo :=
  data.take a ++ ((data.drop a).take (b - a)).reverse ++ data.drop b

/-- A loop `for i <= j && cond(i) { i++ }`, with `d = j + 1 - i`. -/
def scanUp (cond : Nat → Bool) : Nat → Nat → Nat
  | 0, i => i
  | d + 1, i => if cond i then scanUp cond d (i + 1) else i

/-- A loop `for i <= j && cond(j) { j-- }`, with `d = j + 1 - i`. -/
def scanDown (cond : Nat → Bool) : Nat → Nat → Nat
  | 0, j => j
  | d + 1, j => if cond j then scanDown cond d (j - 1) else j

/-- The loop of Go `siftDown_func` from `root`; `fuel` bounds the number of rounds, and
`hi` rounds are all there can be since `root` grows. -/
def siftDown (lt : ItemInfo → ItemInfo → Bool) (hi first : Nat) :
    Nat → Nat → List ItemInfo → List ItemInfo
  | 0, _, data => data
  | fuel + 1, root, data =>
    let child := 2 * root + 1
    if child ≥ hi then data
    else
      let child :=
        if child + 1 < hi && lessAt lt data (first + child) (first + child + 1) then child + 1
        else child
      if ! lessAt lt data (first + root) (first + child) then data
      else siftDown lt hi first fuel child (swapAt data (first + root) (first + child))

/-- The first loop of Go `heapSort_func`, `for i := (hi - 1) / 2; i >= 0; i--`, with
`count = i + 1`. -/
def heapBuild (lt : ItemInfo → ItemInfo → Bool) (hi first : Nat) :
    Nat → List ItemInfo → List ItemInfo
  | 0, data => data
  | i + 1, data => heapBuild lt hi first i (siftDown lt hi first hi i data)

/-- The second loop of Go `heapSort_func`, `for i := hi - 1; i >= 0; i--`, with
`count = i + 1`. -/
def heapPop (lt : ItemInfo → ItemInfo → Bool) (first : Nat) :
    Nat → List ItemInfo → List ItemInfo
  | 0, data => data
  | i + 1, data => heapPop lt first i (siftDown lt i first i 0 (swapAt data first (first + i)))

/-- Go `heapSort_func` on `data[a:b]`. -/
def heapSort (lt : ItemInfo → ItemInfo → Bool) (data : List ItemInfo) (a b : Nat) :
    List ItemInfo :=
  let hi := b - a
  heapPop lt a hi (heapBuild lt hi a ((hi - 1) / 2 + 1) data)

/-- Go `xorshift.Next` on a 64-bit state. -/
def xorshiftNext (r : Nat) : Nat :=
  let r := r ^^^ ((r <<< 13) % 2 ^ 64)
  let r := r ^^^ (r >>> 7)
  r ^^^ ((r <<< 17) % 2 ^ 64)

/-- Go `bits.Len`: the number of binary digits of `x`; `fuel` is at least `x`. -/
def bitsLen : Nat → Nat → Nat
  | 0, _ => 0
  | fuel + 1, x => if x = 0 then 0 else bitsLen fuel (x / 2) + 1

/-- Go `breakPatterns_func` on `data[a:b]`: three swaps, of the elements at `idx`,
`idx + 1` and `idx + 2` with pseudo-random ones. -/
def breakPatterns (data : List ItemInfo) (a b : Nat) : List ItemInfo :=
  let length := b - a
  if length ≥ 8 then
    let modulus := 2 ^ bitsLen length length
    let idx := a + (length / 4) * 2 - 1
    let pick := fun (r : Nat) =>
      let other := r &&& (modulus - 1)
      if other ≥ length then other - length else other
    let r1 := xorshiftNext length
    let r2 := xorshiftNext r1
    let r3 := xorshiftNext r2
    let data := swapAt data idx (a + pick r1)
    let data := swapAt data (idx + 1) (a + pick r2)
    swapAt data (idx + 2) (a + pick r3)
  else data

/-- The type `sortedHint` of the library. -/
inductive sortedHint where
  | unknownHint
  | increasingHint
  | decreasingHint
  deriving DecidableEq

/-- Go `order2_func`: the two indices in order, and the count of swaps. -/
def order2 (lt : ItemInfo → ItemInfo → Bool) (data : List ItemInfo) (a b swaps : Nat) :
    Nat × Nat × Nat :=
  if lessAt lt data b a then (b, a, swaps + 1) else (a, b, swaps)

/-- Go `median_func`: the index of the median of three, and the count of swaps. -/
def median (lt : ItemInfo → ItemInfo → Bool) (data : List ItemInfo) (a b c swaps : Nat) :
    Nat × Nat :=
  let r1 := order2 lt data a b swaps
  let r2 := order2 lt data r1.2.1 c r1.2.2
  let r3 := order2 lt data r1.1 r2.1 r2.2.2
  (r3.2.1, r3.2.2)

/-- Go `medianAdjacent_func`. -/
def medianAdjacent (lt : ItemInfo → ItemInfo → Bool) (data : List ItemInfo) (a swaps : Nat) :
    Nat × Nat :=
  median lt data (a - 1) a (a + 1) swaps

/-- Go `choosePivot_func` on `data[a:b]`. -/
def choosePivot (lt : ItemInfo → ItemInfo → Bool) (data : List ItemInfo) (a b : Nat) :
    Nat × sortedHint :=
  let l := b - a
  let i := a + l / 4 * 1
  let j := a + l / 4 * 2
  let k := a + l / 4 * 3
  let r :=
    if l ≥ 8 then
      if l ≥ 50 then
        let ri := medianAdjacent lt data i 0
        let rj := medianAdjacent lt data j ri.2
        let rk := medianAdjacent lt data k rj.2
        median lt data ri.1 rj.1 rk.1 rk.2
      else median lt data i j k 0
    else (j, 0)
  if r.2 = 0 then (r.1, sortedHint.increasingHint)
  else if r.2 = 12 then (r.1, sortedHint.decreasingHint)
  else (r.1, sortedHint.unknownHint)

/-- The loop `for j := i - 1; j >= 1; j--` of Go `partialInsertionSort_func` that shifts
the smaller element to the left. -/
def shiftLeft (lt : ItemInfo → ItemInfo → Bool) : Nat → List ItemInfo → List ItemInfo
  | 0, data => data
  | j + 1, data =>
    if ! lessAt lt data (j + 1) j then data
    else shiftLeft lt j (swapAt data (j + 1) j)

/-- The loop `for j := i + 1; j < b; j++` of Go `partialInsertionSort_func` that shifts
the greater element to the right, with `d = b - j`. -/
def shiftRight (lt : ItemInfo → ItemInfo → Bool) : Nat → Nat → List ItemInfo → List ItemInfo
  | 0, _, data => data
  | d + 1, j, data =>
    if ! lessAt lt data j (j - 1) then data
    else shiftRight lt d (j + 1) (swapAt data j (j - 1))

/-- The loop `for j := 0; j < maxSteps; j++` of Go `partialInsertionSort_func`, with
`steps = maxSteps - j`. -/
def partialInsertionLoop (lt : ItemInfo → ItemInfo → Bool) (a b : Nat) :
    Nat → Nat → List ItemInfo → List ItemInfo × Bool
  | 0, _, data => (data, false)
  | steps + 1, i, data =>
    let i := scanUp (fun i => ! lessAt lt data i (i - 1)) (b - i) i
    if i = b then (data, true)
    else if b - a < 50 then (data, false)
    else
      let data := swapAt data i (i - 1)
      let data := if i - a ≥ 2 then shiftLeft lt (i - 1) data else data
      let data := if b - i ≥ 2 then shiftRight lt (b - (i + 1)) (i + 1) data else data
      partialInsertionLoop lt a b steps i data

/-- Go `partialInsertionSort_func` on `data[a:b]`: the slice, and whether it is sorted. -/
def partialInsertionSort (lt : ItemInfo → ItemInfo → Bool) (data : List ItemInfo) (a b : Nat) :
    List ItemInfo × Bool :=
  partialInsertionLoop lt a b 5 (a + 1) data

/-- The loop `for { ... }` of Go `partitionEqual_func`; `fuel` is at least
`j + 1 - i`. -/
def partitionEqualLoop (lt : ItemInfo → ItemInfo → Bool) (a : Nat) :
    Nat → List ItemInfo → Nat → Nat → List ItemInfo × Nat
  | 0, data, i, _ => (data, i)
  | fuel + 1, data, i, j =>
    let i := scanUp (fun i => ! lessAt lt data a i) (j + 1 - i) i
    let j := scanDown (fun j => lessAt lt data a j) (j + 1 - i) j
    if i > j then (data, i)
    else partitionEqualLoop lt a fuel (swapAt data i j) (i + 1) (j - 1)

/-- Go `partitionEqual_func` on `data[a:b]`: the slice and the new pivot index. -/
def partitionEqual (lt : ItemInfo → ItemInfo → Bool) (data : List ItemInfo) (a b pivot : Nat) :
    List ItemInfo × Nat :=
  partitionEqualLoop lt a (b - a) (swapAt data a pivot) (a + 1) (b - 1)

/-- The loop `for { ... }` of Go `partition_func`; `fuel` is at least `j + 1 - i`. -/
def partitionLoop (lt : ItemInfo → ItemInfo → Bool) (a : Nat) :
    Nat → List ItemInfo → Nat → Nat → List ItemInfo × Nat
  | 0, data, _, j => (data, j)
  | fuel + 1, data, i, j =>
    let i := scanUp (fun i => lessAt lt data i a) (j + 1 - i) i
    let j := scanDown (fun j => ! lessAt lt data j a) (j + 1 - i) j
    if i > j then (data, j)
    else partitionLoop lt a fuel (swapAt data i j) (i + 1) (j - 1)

/-- Go `partition_func` on `data[a:b]`: the slice, the new pivot index, and whether the
slice was already partitioned. -/
def partition (lt : ItemInfo → ItemInfo → Bool) (data : List ItemInfo) (a b pivot : Nat) :
    List ItemInfo × Nat × Bool :=
  let data := swapAt data a pivot
  let i := scanUp (fun i => lessAt lt data i a) (b - 1 + 1 - (a + 1)) (a + 1)
  let j := scanDown (fun j => ! lessAt lt data j a) (b - 1 + 1 - i) (b - 1)
  if i > j then (swapAt data j a, j, true)
  else
    let r := partitionLoop lt a (b - a) (swapAt data i j) (i + 1) (j - 1)
    (swapAt r.1 r.2 a, r.2, false)

/-- Go `pdqsort_func` on `data[a:b]`. One unit of `fuel` is used by every round of the
loop and by every recursive call, each of which works on a shorter range; `none` when it
runs out. -/
def pdqsort (lt : ItemInfo → ItemInfo → Bool) :
    Nat → List ItemInfo → Nat → Nat → Nat → Bool → Bool → Option (List ItemInfo)
  | 0, _, _, _, _, _, _ => none
  | fuel + 1, data, a, b, limit, wasBalanced, wasPartitioned =>
    let length := b - a
    if length ≤ 12 then some (insertionSortRange lt data a b)
    else if limit = 0 then some (heapSort lt data a b)
    else
      let data := if ! wasBalanced then breakPatterns data a b else data
      let limit := if ! wasBalanced then limit - 1 else limit
      let chosen := choosePivot lt data a b
      let reversed : Bool := chosen.2 = sortedHint.decreasingHint
      let data := if reversed then reverseRange data a b else data
      let pivot := if reversed then (b - 1) - (chosen.1 - a) else chosen.1
      let hint := if reversed then sortedHint.increasingHint else chosen.2
      let tried :=
        if wasBalanced && wasPartitioned && hint = sortedHint.increasingHint then
          partialInsertionSort lt data a b
        else (data, false)
      if tried.2 then some tried.1
      else
        let data := tried.1
        if a > 0 && ! lessAt lt data (a - 1) pivot then
          let r := partitionEqual lt data a b pivot
          pdqsort lt fuel r.1 r.2 b limit wasBalanced wasPartitioned
        else
          let r := partition lt data a b pivot
          let mid := r.2.1
          let leftLen := mid - a
          let rightLen := b - mid
          let balanceThreshold := length / 8
          if leftLen < rightLen then
            match pdqsort lt fuel r.1 a mid limit true true with
            | none => none
            | some data =>
              pdqsort lt fuel data (mid + 1) b limit (leftLen ≥ balanceThreshold) r.2.2
          else
            match pdqsort lt fuel r.1 (mid + 1) b limit true true with
            | none => none
            | some data => pdqsort lt fuel data a mid limit (rightLen ≥ balanceThreshold) r.2.2

/-- Go `sort.Slice`. -/
def Slice (x : List ItemInfo) (lt : ItemInfo → ItemInfo → Bool) : List ItemInfo :=
  match pdqsort lt (x.length + 1) x 0 x.length (bitsLen x.length x.length) true true with
  | some data => data
  | none => x

/-- Thirteen file names: twelve with the key `1`, in the order of their extensions, and
last one with the key `0`. -/
def tiedNames : List String :=
  ["1.a", "1.b", "1.c", "1.d", "1.e", "1.f", "1.g", "1.h", "1.i", "1.j", "1.k", "1.l", "0.z"]

/-! ## `ExtendedFileInfo.DetectSubtitles` -/

/-- The type `SubtitleTrack` of the source. -/
structure SubtitleTrack where
  Name : String
  Language : String
  Title : String
  Index : Option Int
  Codec : String
  IsFile : Bool
  deriving DecidableEq

/-- Modelled from the spec: the declaration of `ExtendedFileInfo` is not among the
sources; it holds the name, the media type, the modification time and the real path of an
item, its list of subtitles, and further fields that `DetectSubtitles` never touches. -/
structure ExtendedFileInfo where
  Name : String
  Size : Int
  ModTime : Int
  FileType : String
  Path : String
  RealPath : String
  Content : String
  Subtitles : List SubtitleTrack
  deriving DecidableEq

/-- Go `strings.HasPrefix`. -/
def HasPrefix (s pre : String) : Bool :=
  pre.data.isPrefixOf s.data

/-- A call that `DetectSubtitles` makes to one of its collaborators: the logger, or the
subtitle detection of the media prober with its three arguments. -/
inductive Delegation where
  | loggerDebug (msg : String)
  | detectAllSubtitles (realPath parentDir : String) (modTime : Int)
  deriving DecidableEq

/-- Go `ExtendedFileInfo.DetectSubtitles`: the item after the call and the calls made.
`DetectAllSubtitles` is the operation of the media prober; the method returns no error
value. -/
def DetectSubtitles (DetectAllSubtitles : String → String → Int → List SubtitleTrack)
    (i : ExtendedFileInfo) (_parentInfo : FileInfo) : ExtendedFileInfo × List Delegation :=
  if ! HasPrefix i.FileType "video" then
    (i, [Delegation.loggerDebug ("subtitles are not supported for this file : " ++ i.Name)])
  else
    let parentDir := Dir i.RealPath
    ({ i with Subtitles := DetectAllSubtitles i.RealPath parentDir i.ModTime },
      [Delegation.detectAllSubtitles i.RealPath parentDir i.ModTime])

/-- The calls of `k` iterations of the fallback loop over the readable symlinks `p 0`,
..., `p (k - 1)`. -/
def hopCalls (p : Nat → String) : Nat → List Call
  | 0 => []
  | k + 1 => hopCalls p k ++ [Call.seenLookup (p k), Call.lstat (p k), Call.readlink (p k)]

/-- In `/t`: a link `a -> b` and a link `b` whose target cannot be read. -/
def fsUnreadable : FileSystem where
  EvalSymlinks := fun _ => .error "input/output error"
  Lstat := fun p =>
    if p = "/t/a" then .ok ⟨"a", 1, linkMode⟩
    else if p = "/t/b" then .ok ⟨"b", 1, linkMode⟩
    else .error "no such file or directory"
  Readlink := fun p =>
    if p = "/t/a" then .ok "b" else .error "input/output error"

/-- The paths `/t/a`, `/t/b` of the fallback loop on `fsUnreadable`. -/
def unreadablePath (i : Nat) : String :=
  if i = 0 then "/t/a" else "/t/b"

/-- The paths `/t/l`, `/t/nowhere` of the fallback loop on `fsDotDot` from the dangling
link. -/
def danglingPath (i : Nat) : String :=
  if i = 0 then "/t/l" else "/t/nowhere"

/-! ## The path functions on entries of the test tables of `path/filepath` -/

theorem Clean_examples :
    Clean "" = "." ∧ Clean "abc" = "abc" ∧ Clean "/" = "/" ∧ Clean ".." = ".." ∧
    Clean "../../abc" = "../../abc" ∧ Clean "abc/def/" = "abc/def" ∧ Clean "./" = "." ∧
    Clean "abc//def//ghi" = "abc/def/ghi" ∧ Clean "/./abc/def" = "/abc/def" ∧
    Clean "abc/def/ghi/../jkl" = "abc/def/jkl" ∧ Clean "abc/def/../.." = "." ∧
    Clean "/abc/def/../.." = "/" ∧ Clean "abc/def/../../.." = ".." ∧
    Clean "/abc/def/../../.." = "/" ∧
    Clean "abc/def/../../../ghi/jkl/../../../mno" = "../../mno" ∧
    Clean "/../abc" = "/abc" ∧ Clean "abc/./../def" = "def" ∧
    Clean "abc/../../././../def" = "../../def" := by
  decide

theorem Dir_examples :
    Dir "" = "." ∧ Dir "." = "." ∧ Dir "/." = "/" ∧ Dir "/" = "/" ∧ Dir "/foo" = "/" ∧
    Dir "x/" = "x" ∧ Dir "abc" = "." ∧ Dir "abc/def" = "abc" ∧ Dir "a/b/.x" = "a/b" ∧
    Dir "a/b/c." = "a/b" := by
  decide

theorem Join_examples :
    Join [] = "" ∧ Join [""] = "" ∧ Join ["/"] = "/" ∧ Join ["a"] = "a" ∧
    Join ["a", "b"] = "a/b" ∧ Join ["a", ""] = "a" ∧ Join ["", "b"] = "b" ∧
    Join ["/", "a"] = "/a" ∧ Join ["/", "a/b"] = "/a/b" ∧ Join ["/", ""] = "/" ∧
    Join ["/a", "b"] = "/a/b" ∧ Join ["a", "/b"] = "a/b" ∧ Join ["/a", "/b"] = "/a/b" ∧
    Join ["a/", "b"] = "a/b" ∧ Join ["a/", ""] = "a" ∧ Join ["", ""] = "" := by
  decide

theorem Atoi_examples :
    Atoi "" = none ∧ Atoi "0" = some 0 ∧ Atoi "-0" = some 0 ∧ Atoi "+1" = some 1 ∧
    Atoi "-1" = some (-1) ∧ Atoi "012345" = some 12345 ∧ Atoi "12345x" = none ∧
    Atoi "+" = none ∧ Atoi "1_000" = none ∧
    Atoi "9223372036854775807" = some 9223372036854775807 ∧
    Atoi "9223372036854775808" = none ∧
    Atoi "-9223372036854775808" = some (-9223372036854775808) ∧
    Atoi "-9223372036854775809" = none := by
  decide

/-! ## Lemmas on the fallback loop -/

theorem SymlinkHop.unique {fs : FileSystem} {p q q' : String}
    (h : SymlinkHop fs p q) (h' : SymlinkHop fs p q') : q = q' := by
  obtain ⟨info, target, _, _, hr, hq⟩ := h
  obtain ⟨info', target', _, _, hr', hq'⟩ := h'
  rw [hr] at hr'
  cases hr'
  rw [hq, hq']

theorem SymlinkHop.not_notSymlink {fs : FileSystem} {p q : String} {info : OsFileInfo}
    (h : SymlinkHop fs p q) (h' : NotSymlink fs p info) : False := by
  obtain ⟨info0, target, hl, hm, _, _⟩ := h
  obtain ⟨hl', hm'⟩ := h'
  rw [hl] at hl'
  cases hl'
  exact hm hm'

/-- One iteration on a readable symlink that has not been seen. -/
theorem fallbackLoop_hop (fs : FileSystem) (isDir : OsFileInfo → Bool) (path : String)
    (n : Nat) (seen : List String) (p q : String)
    (hseen : p ∉ seen) (h : SymlinkHop fs p q) :
    (fallbackLoop fs isDir path (n + 1) seen p).1
      = (fallbackLoop fs isDir path n (p :: seen) q).1 := by
  obtain ⟨info, target, hl, hm, hr, hq⟩ := h
  simp [fallbackLoop, hseen, hl, hm, hr, hq]

/-- One iteration on a path that is not a symlink and has not been seen. -/
theorem fallbackLoop_done (fs : FileSystem) (isDir : OsFileInfo → Bool) (path : String)
    (n : Nat) (seen : List String) (p : String) (info : OsFileInfo)
    (hseen : p ∉ seen) (h : NotSymlink fs p info) :
    (fallbackLoop fs isDir path (n + 1) seen p).1 = ⟨p, isDir info, none⟩ := by
  obtain ⟨hl, hm⟩ := h
  simp [fallbackLoop, hseen, hl, hm]

/-- After `k` hops over pairwise distinct readable symlinks, none of them seen before, the
loop stands at `p k` with `k` iterations fewer left and exactly those paths added to
`seen`. -/
theorem fallbackLoop_follow (fs : FileSystem) (isDir : OsFileInfo → Bool) (path : String)
    (n : Nat) : ∀ (k : Nat) (seen : List String) (p : Nat → String),
    (∀ i, i < k → SymlinkHop fs (p i) (p (i + 1))) →
    (∀ i, i < k → p i ∉ seen) →
    (∀ i j, i < j → j < k → p i ≠ p j) →
    ∃ seen', (∀ x, x ∈ seen' ↔ x ∈ seen ∨ ∃ i, i < k ∧ x = p i) ∧
      (fallbackLoop fs isDir path (n + k) seen (p 0)).1
        = (fallbackLoop fs isDir path n seen' (p k)).1 := by
  intro k
  induction k with
  | zero =>
    intro seen p _ _ _
    exact ⟨seen, by simp, rfl⟩
  | succ k ih =>
    intro seen p hhop hseen hne
    have h0 : p 0 ∉ seen := hseen 0 (Nat.succ_pos k)
    obtain ⟨seen', hmem, heq⟩ := ih (p 0 :: seen) (fun i => p (i + 1))
      (fun i hi => hhop (i + 1) (Nat.succ_lt_succ hi))
      (fun i hi hin => by
        rcases List.mem_cons.mp hin with h | h
        · exact hne 0 (i + 1) (Nat.succ_pos i) (Nat.succ_lt_succ hi) h.symm
        · exact hseen (i + 1) (Nat.succ_lt_succ hi) h)
      (fun i j hij hj => hne (i + 1) (j + 1) (Nat.succ_lt_succ hij) (Nat.succ_lt_succ hj))
    refine ⟨seen', ?_, ?_⟩
    · intro x
      rw [hmem x]
      constructor
      · rintro (h | ⟨i, hi, hx⟩)
        · rcases List.mem_cons.mp h with h | h
          · exact Or.inr ⟨0, Nat.succ_pos k, h⟩
          · exact Or.inl h
        · exact Or.inr ⟨i + 1, Nat.succ_lt_succ hi, hx⟩
      · rintro (h | ⟨i, hi, hx⟩)
        · exact Or.inl (List.mem_cons_of_mem _ h)
        · cases i with
          | zero => exact Or.inl (by rw [hx]; exact List.mem_cons_self _ _)
          | succ i => exact Or.inr ⟨i, Nat.lt_of_succ_lt_succ hi, hx⟩
    · have hstep := fallbackLoop_hop fs isDir path (n + k) seen (p 0) (p 1) h0
        (hhop 0 (Nat.succ_pos k))
      rw [show n + (k + 1) = n + k + 1 from rfl, hstep]
      exact heq

/-- A chain of hops that ends at a path that is not a symlink never repeats a path. -/
theorem chain_distinct (fs : FileSystem) (k : Nat) (p : Nat → String) (info : OsFileInfo)
    (hhop : ∀ i, i < k → SymlinkHop fs (p i) (p (i + 1)))
    (hend : NotSymlink fs (p k) info) :
    ∀ i j, i < j → j ≤ k → p i ≠ p j := by
  intro i j hij hjk heq
  have key : ∀ d, j + d ≤ k → p (i + d) = p (j + d) := by
    intro d
    induction d with
    | zero => intro _; exact heq
    | succ d ih =>
      intro hd
      have h1 := hhop (i + d) (by omega)
      have h2 := hhop (j + d) (by omega)
      rw [ih (by omega)] at h1
      exact h1.unique h2
  have hk := key (k - j) (by omega)
  rw [show j + (k - j) = k by omega] at hk
  have h1 := hhop (i + (k - j)) (by omega)
  rw [hk] at h1
  exact h1.not_notSymlink hend

/-- A successful return of the loop comes from a chain of fewer than `n` hops that ends
at a path that is not a symlink. -/
theorem fallbackLoop_success (fs : FileSystem) (isDir : OsFileInfo → Bool) (path : String) :
    ∀ (n : Nat) (seen : List String) (c : String),
    (fallbackLoop fs isDir path n seen c).1.err = none →
    ∃ k, k < n ∧ ∃ (p : Nat → String) (info : OsFileInfo), p 0 = c ∧
      (∀ i, i < k → SymlinkHop fs (p i) (p (i + 1))) ∧ NotSymlink fs (p k) info ∧
      (fallbackLoop fs isDir path n seen c).1 = ⟨p k, isDir info, none⟩ := by
  intro n
  induction n with
  | zero =>
    intro seen c h
    simp [fallbackLoop] at h
  | succ n ih =>
    intro seen c h
    by_cases hseen : c ∈ seen
    · simp [fallbackLoop, hseen] at h
    · cases hl : fs.Lstat c with
      | error lerr => simp [fallbackLoop, hseen, hl] at h
      | ok info =>
        by_cases hm : info.Mode &&& ModeSymlink = 0
        · exact ⟨0, Nat.succ_pos n, fun _ => c, info, rfl, fun i hi => absurd hi (Nat.not_lt_zero i),
            ⟨hl, hm⟩, fallbackLoop_done fs isDir path n seen c info hseen ⟨hl, hm⟩⟩
        · cases hr : fs.Readlink c with
          | error rerr => simp [fallbackLoop, hseen, hl, hm, hr] at h
          | ok target =>
            have hhop : SymlinkHop fs c (Join [Dir c, target]) := ⟨info, target, hl, hm, hr, rfl⟩
            have hstep := fallbackLoop_hop fs isDir path n seen c _ hseen hhop
            rw [hstep] at h ⊢
            obtain ⟨k, hk, p, info', hp0, hhops, hend, hres⟩ := ih (c :: seen) _ h
            refine ⟨k + 1, Nat.succ_lt_succ hk,
              fun i => match i with | 0 => c | i + 1 => p i, info', rfl, ?_, hend, hres⟩
            intro i hi
            cases i with
            | zero => simpa [hp0] using hhop
            | succ i => exact hhops i (Nat.lt_of_succ_lt_succ hi)

/-- The calls of the loop: at most one lookup, one lstat and one readlink for each of
its `n` iterations. -/
theorem fallbackLoop_calls (fs : FileSystem) (isDir : OsFileInfo → Bool) (path : String) :
    ∀ (n : Nat) (seen : List String) (c : String),
    iterations (fallbackLoop fs isDir path n seen c).2 ≤ n ∧
    lstatCalls (fallbackLoop fs isDir path n seen c).2 ≤ n ∧
    readlinkCalls (fallbackLoop fs isDir path n seen c).2 ≤ n := by
  intro n
  induction n with
  | zero => intro seen c; simp [fallbackLoop, iterations, lstatCalls, readlinkCalls]
  | succ n ih =>
    intro seen c
    unfold fallbackLoop
    split
    · simp [iterations, lstatCalls, readlinkCalls]
    · split
      · simp [iterations, lstatCalls, readlinkCalls]
      · split
        · simp [iterations, lstatCalls, readlinkCalls]
        · split
          · simp [iterations, lstatCalls, readlinkCalls]
          · rename_i target _
            have h := ih (c :: seen) (Join [Dir c, target])
            simp only [iterations, lstatCalls, readlinkCalls] at h ⊢
            simp [List.filter]
            omega

/-- A chain of at most `n - 1` hops that ends at a path that is not a symlink makes the
loop return that path with its own classification. -/
theorem fallbackLoop_reach (fs : FileSystem) (isDir : OsFileInfo → Bool) (path : String)
    (n k : Nat) (p : Nat → String) (info : OsFileInfo) (hk : k < n)
    (hhop : ∀ i, i < k → SymlinkHop fs (p i) (p (i + 1)))
    (hend : NotSymlink fs (p k) info) :
    (fallbackLoop fs isDir path n [] (p 0)).1 = ⟨p k, isDir info, none⟩ := by
  have hne := chain_distinct fs k p info hhop hend
  obtain ⟨seen', hmem, heq⟩ := fallbackLoop_follow fs isDir path (n - k) k [] p hhop
    (fun i _ => List.not_mem_nil _) (fun i j hij hj => hne i j hij (Nat.le_of_lt hj))
  rw [show n - k + k = n by omega] at heq
  rw [heq]
  obtain ⟨m, hm⟩ : ∃ m, n - k = m + 1 := ⟨n - k - 1, by omega⟩
  rw [hm]
  refine fallbackLoop_done fs isDir path m seen' (p k) info ?_ hend
  intro hin
  rcases (hmem (p k)).mp hin with h | ⟨i, hi, hx⟩
  · exact List.not_mem_nil _ h
  · exact hne i k hi (Nat.le_refl k) hx.symm

/-- The fallback is what `ResolveSymlinks` returns when `EvalSymlinks` fails. -/
theorem ResolveSymlinks_fallback (fs : FileSystem) (isDir : OsFileInfo → Bool)
    (path e : String) (hprim : fs.EvalSymlinks path = .error e) :
    (ResolveSymlinks fs isDir path).1 = (fallbackLoop fs isDir path 64 [] path).1 := by
  simp [ResolveSymlinks, hprim]

/-- On the nested links one hop leads one level down, within the first 64 levels. -/
theorem chainPath_join : ∀ i, i < 64 → Join [Dir (chainPath i), "x/l"] = chainPath (i + 1) := by
  decide

theorem chainChars_injective : ∀ {i j : Nat}, chainChars i = chainChars j → i = j
  | 0, 0, _ => rfl
  | 0, j + 1, h => by simp [chainChars] at h
  | i + 1, 0, h => by simp [chainChars] at h
  | i + 1, j + 1, h => by
    simp only [chainChars, List.cons.injEq, true_and] at h
    rw [chainChars_injective h]

theorem chainPath_injective {i j : Nat} (h : chainPath i = chainPath j) : i = j := by
  have h' := congrArg String.data h
  simp only [chainPath, List.cons.injEq, true_and] at h'
  exact chainChars_injective h'

/-- Above the level `stop`, and within the first 64 levels, every `l` is a readable
symlink to the `l` one level down. -/
theorem fsChain_hop (stop i : Nat) (hi : i < 64) (hstop : i ≠ stop) :
    SymlinkHop (fsChain stop) (chainPath i) (chainPath (i + 1)) := by
  have hne : chainPath i ≠ chainPath stop := fun h => hstop (chainPath_injective h)
  exact ⟨⟨"l", 3, linkMode⟩, "x/l", by simp [fsChain, hne], by decide, by simp [fsChain, hne],
    (chainPath_join i hi).symm⟩

/-! ## Lemmas on the insertion sort and on the comparator -/

theorem insertBack_perm (lt : ItemInfo → ItemInfo → Bool) (x : ItemInfo) :
    ∀ rev : List ItemInfo, (insertBack lt x rev).Perm (x :: rev)
  | [] => List.Perm.refl _
  | y :: rev => by
    unfold insertBack
    split
    · exact ((insertBack_perm lt x rev).cons y).trans (List.Perm.swap x y rev)
    · exact List.Perm.refl _

theorem foldl_insertBack_perm (lt : ItemInfo → ItemInfo → Bool) :
    ∀ (xs acc : List ItemInfo),
      (xs.foldl (fun rev x => insertBack lt x rev) acc).Perm (xs.reverse ++ acc)
  | [], acc => by simp
  | x :: xs, acc => by
    rw [List.foldl_cons]
    refine (foldl_insertBack_perm lt xs (insertBack lt x acc)).trans ?_
    rw [List.reverse_cons, List.append_assoc]
    exact (insertBack_perm lt x acc).append_left _

theorem insertionSort_perm (xs : List ItemInfo) (lt : ItemInfo → ItemInfo → Bool) :
    (insertionSort xs lt).Perm xs := by
  unfold insertionSort
  refine (List.reverse_perm _).trans ?_
  refine (foldl_insertBack_perm lt xs []).trans ?_
  rw [List.append_nil]
  exact List.reverse_perm xs

/-- Inserting into a part in which no element is less than a later one keeps it so, when
`lt` is a strict weak ordering on the elements involved. -/
theorem insertBack_pairwise (lt : ItemInfo → ItemInfo → Bool) (all : List ItemInfo)
    (hswo : StrictWeakOn lt all) (x : ItemInfo) (hx : x ∈ all) :
    ∀ rev : List ItemInfo, (∀ y ∈ rev, y ∈ all) →
      rev.Pairwise (fun a b => lt a b = false) →
      (insertBack lt x rev).Pairwise (fun a b => lt a b = false)
  | [], _, _ => by simp [insertBack]
  | y :: rev, hmem, hsorted => by
    obtain ⟨hirr, htrans, hneg⟩ := hswo
    have hy : y ∈ all := hmem y (List.mem_cons_self _ _)
    have hrev : ∀ z ∈ rev, z ∈ all := fun z hz => hmem z (List.mem_cons_of_mem _ hz)
    rw [List.pairwise_cons] at hsorted
    unfold insertBack
    split
    · rename_i hlt
      rw [List.pairwise_cons]
      refine ⟨?_, insertBack_pairwise lt all ⟨hirr, htrans, hneg⟩ x hx rev hrev hsorted.2⟩
      intro z hz
      rcases List.mem_cons.mp ((insertBack_perm lt x rev).mem_iff.mp hz) with h | h
      · rw [h]
        cases hyx : lt y x with
        | false => rfl
        | true =>
          have := htrans x hx y hy x hx hlt hyx
          rw [hirr x hx] at this
          exact absurd this (by simp)
      · exact hsorted.1 z h
    · rename_i hlt
      have hxy : lt x y = false := by simpa using hlt
      rw [List.pairwise_cons]
      refine ⟨?_, List.pairwise_cons.mpr hsorted⟩
      intro z hz
      rcases List.mem_cons.mp hz with h | h
      · rw [h]; exact hxy
      · exact hneg x hx y hy z (hrev z h) hxy (hsorted.1 z h)

theorem foldl_insertBack_pairwise (lt : ItemInfo → ItemInfo → Bool) (all : List ItemInfo)
    (hswo : StrictWeakOn lt all) :
    ∀ (xs acc : List ItemInfo), (∀ x ∈ xs, x ∈ all) → (∀ y ∈ acc, y ∈ all) →
      acc.Pairwise (fun a b => lt a b = false) →
      (xs.foldl (fun rev x => insertBack lt x rev) acc).Pairwise (fun a b => lt a b = false)
  | [], _, _, _, hsorted => by simpa using hsorted
  | x :: xs, acc, hxs, hacc, hsorted => by
    rw [List.foldl_cons]
    have hx : x ∈ all := hxs x (List.mem_cons_self _ _)
    refine foldl_insertBack_pairwise lt all hswo xs (insertBack lt x acc)
      (fun z hz => hxs z (List.mem_cons_of_mem _ hz)) ?_
      (insertBack_pairwise lt all hswo x hx acc hacc hsorted)
    intro z hz
    rcases List.mem_cons.mp ((insertBack_perm lt x acc).mem_iff.mp hz) with h | h
    · rw [h]; exact hx
    · exact hacc z h

/-- The insertion sort does what `sort.Slice` is documented to do. -/
theorem insertionSort_contract : SortSliceContract insertionSort := by
  intro xs lt
  refine ⟨insertionSort_perm xs lt, ?_⟩
  intro hswo
  unfold insertionSort
  rw [List.pairwise_reverse]
  exact foldl_insertBack_pairwise lt xs hswo xs [] (fun _ h => h)
    (fun _ h => absurd h (List.not_mem_nil _)) List.Pairwise.nil

/-- The comparator reads nothing but the names. -/
theorem less_of_names (lowerRune : Char → Char) (a b a' b' : ItemInfo)
    (ha : a.Name = a'.Name) (hb : b.Name = b'.Name) :
    less lowerRune a b = less lowerRune a' b' := by
  unfold less
  rw [ha, hb]

/-- On names of ASCII characters every table that is right on ASCII gives the comparator
of the ASCII table. -/
theorem less_ascii (lowerRune : Char → Char) (hl : LowersAscii lowerRune) (a b : ItemInfo)
    (ha : ∀ c ∈ a.Name.data, c.toNat < 128) (hb : ∀ c ∈ b.Name.data, c.toNat < 128) :
    less lowerRune a b = less asciiLower a b := by
  have h1 : ToLower lowerRune a.Name = ToLower asciiLower a.Name := by
    unfold ToLower
    rw [List.map_congr_left fun c hc => hl c (ha c hc)]
  have h2 : ToLower lowerRune b.Name = ToLower asciiLower b.Name := by
    unfold ToLower
    rw [List.map_congr_left fun c hc => hl c (hb c hc)]
  unfold less
  rw [h1, h2]

/-- On two names whose keys parse as integers the comparator compares the values. -/
theorem less_numeric (lowerRune : Char → Char) (a b : ItemInfo) (x y : Int)
    (ha : Atoi (nameWithoutExt a.Name) = some x) (hb : Atoi (nameWithoutExt b.Name) = some y) :
    less lowerRune a b = decide (x < y) := by
  unfold less
  rw [ha, hb]

theorem asciiLower_lowersAscii : LowersAscii asciiLower :=
  fun _ _ => rfl

/-- The comparator of the ASCII table on the four names of the mixed example is a strict
weak ordering in which no two of the names are tied. -/
theorem mixedNames_order :
    (∀ a ∈ mixedNames, ∀ c ∈ a.data, c.toNat < 128) ∧
    (∀ a ∈ mixedNames, less asciiLower (named a) (named a) = false) ∧
    (∀ a ∈ mixedNames, ∀ b ∈ mixedNames, ∀ c ∈ mixedNames,
      less asciiLower (named a) (named b) = true → less asciiLower (named b) (named c) = true →
        less asciiLower (named a) (named c) = true) ∧
    (∀ a ∈ mixedNames, ∀ b ∈ mixedNames, ∀ c ∈ mixedNames,
      less asciiLower (named a) (named b) = false → less asciiLower (named b) (named c) = false →
        less asciiLower (named a) (named c) = false) ∧
    (∀ a ∈ mixedNames, ∀ b ∈ mixedNames,
      less asciiLower (named b) (named a) = false → less asciiLower (named a) (named b) = false →
        a = b) := by
  refine ⟨by decide, by decide, by decide, by decide, by decide⟩

/-! ## Properties of `ResolveSymlinks` -/

/-- C1. When `EvalSymlinks` fails on the input and the fallback paths `p 0 = path`, ...,
`p k` are such that the first `k` are pairwise distinct readable symlinks and `p k` is one
of them, with `k ≤ 63`, `ResolveSymlinks` returns the error `symlink cycle detected at:`
naming `p k`, with the path `p k` and the flag false, and so never success. -/
theorem ResolveSymlinks_cycle_detected (fs : FileSystem) (isDir : OsFileInfo → Bool)
    (path e : String) (p : Nat → String) (k : Nat)
    (hprim : fs.EvalSymlinks path = .error e) (hp0 : p 0 = path) (hk : k ≤ 63)
    (hhop : ∀ i, i < k → SymlinkHop fs (p i) (p (i + 1)))
    (hne : ∀ i j, i < j → j < k → p i ≠ p j)
    (hcyc : ∃ j, j < k ∧ p j = p k) :
    (ResolveSymlinks fs isDir path).1
        = ⟨p k, false, some ("symlink cycle detected at: " ++ p k)⟩ ∧
      (ResolveSymlinks fs isDir path).1.err ≠ none := by
  have hres : (ResolveSymlinks fs isDir path).1
      = ⟨p k, false, some ("symlink cycle detected at: " ++ p k)⟩ := by
    rw [ResolveSymlinks_fallback fs isDir path e hprim]
    obtain ⟨seen', hmem, heq⟩ := fallbackLoop_follow fs isDir path (64 - k) k [] p hhop
      (fun i _ => List.not_mem_nil _) hne
    rw [show 64 - k + k = 64 by omega, hp0] at heq
    rw [heq]
    obtain ⟨m, hm⟩ : ∃ m, 64 - k = m + 1 := ⟨64 - k - 1, by omega⟩
    have hin : p k ∈ seen' := by
      obtain ⟨j, hj, hjk⟩ := hcyc
      exact (hmem (p k)).mpr (Or.inr ⟨j, hj, hjk.symm⟩)
    rw [hm]
    simp [fallbackLoop, hin]
  exact ⟨hres, by rw [hres]; simp⟩

/-- C1, on the links `a -> b` and `b -> a` of the test: resolving `a` fails with the cycle
error at `a`. -/
theorem ResolveSymlinks_cycle_detected_witness :
    (ResolveSymlinks fsCycle dirBit "/tmp/a").1
        = ⟨"/tmp/a", false, some "symlink cycle detected at: /tmp/a"⟩ ∧
      (ResolveSymlinks fsCycle dirBit "/tmp/a").1.err ≠ none :=
  ResolveSymlinks_cycle_detected fsCycle dirBit "/tmp/a" "EvalSymlinks: too many links"
    cyclePath 2 rfl rfl (by decide)
    (by
      intro i hi
      interval_cases i
      · exact ⟨⟨"a", 1, linkMode⟩, "b", rfl, by decide, rfl, by decide⟩
      · exact ⟨⟨"b", 1, linkMode⟩, "a", rfl, by decide, rfl, by decide⟩)
    (by
      intro i j hij hj
      interval_cases j
      · omega
      · interval_cases i
        decide)
    ⟨0, by decide, rfl⟩

/-- C2. For every filesystem and input, `ResolveSymlinks` returns, with success or with
an error, after at most 64 iterations of the fallback loop, at most 64 calls of `Lstat`
and at most 64 calls of `Readlink`. -/
theorem ResolveSymlinks_terminates (fs : FileSystem) (isDir : OsFileInfo → Bool)
    (path : String) :
    iterations (ResolveSymlinks fs isDir path).2 ≤ 64 ∧
    lstatCalls (ResolveSymlinks fs isDir path).2 ≤ 64 ∧
    readlinkCalls (ResolveSymlinks fs isDir path).2 ≤ 64 ∧
    ((ResolveSymlinks fs isDir path).1.err = none ∨
      ∃ msg, (ResolveSymlinks fs isDir path).1.err = some msg) := by
  refine ⟨?_, ?_, ?_, ?_⟩
  · unfold ResolveSymlinks
    split
    · split <;> simp [iterations]
    · have h := (fallbackLoop_calls fs isDir path 64 [] path).1
      simpa [iterations] using h
  · unfold ResolveSymlinks
    split
    · split <;> simp [lstatCalls]
    · have h := (fallbackLoop_calls fs isDir path 64 [] path).2.1
      simpa [lstatCalls] using h
  · unfold ResolveSymlinks
    split
    · split <;> simp [readlinkCalls]
    · have h := (fallbackLoop_calls fs isDir path 64 [] path).2.2
      simpa [readlinkCalls] using h
  · cases h : (ResolveSymlinks fs isDir path).1.err with
    | none => exact Or.inl rfl
    | some msg => exact Or.inr ⟨msg, rfl⟩

/-- C5, at the link `/t/a -> /x`: the target is absolute, and the loop continues with
`/t/x`, the target joined to the directory of the link, not with the target `/x`; the
call then succeeds with the unrelated file `/t/x`, and `/x` is never looked at. -/
theorem ResolveSymlinks_absolute_target_joined :
    IsAbs "/x" = true ∧
    fsAbsolute.Readlink "/t/a" = .ok "/x" ∧
    Join [Dir "/t/a", "/x"] = "/t/x" ∧
    ResolveSymlinks fsAbsolute dirBit "/t/a"
      = (⟨"/t/x", false, none⟩,
          [Call.evalSymlinks "/t/a", Call.seenLookup "/t/a", Call.lstat "/t/a",
            Call.readlink "/t/a", Call.seenLookup "/t/x", Call.lstat "/t/x"]) := by
  refine ⟨by decide, rfl, by decide, by decide⟩

/-- C6. When `EvalSymlinks` succeeds on the input with `r`, `ResolveSymlinks` calls
`Lstat` on `r` and nothing else: it returns `r`, the classification of the result and no
error when that call succeeds, and `r` with the error `could not stat resolved path:`
naming `r` when it fails; no `Readlink` and no iteration of the fallback loop happens. -/
theorem ResolveSymlinks_primary (fs : FileSystem) (isDir : OsFileInfo → Bool)
    (path r : String) (hprim : fs.EvalSymlinks path = .ok r) :
    (∀ info, fs.Lstat r = .ok info →
      (ResolveSymlinks fs isDir path).1 = ⟨r, isDir info, none⟩) ∧
    (∀ statErr, fs.Lstat r = .error statErr →
      (ResolveSymlinks fs isDir path).1
        = ⟨r, false, some ("could not stat resolved path: " ++ r ++ ", " ++ statErr)⟩) ∧
    (ResolveSymlinks fs isDir path).2 = [Call.evalSymlinks path, Call.lstat r] ∧
    readlinkCalls (ResolveSymlinks fs isDir path).2 = 0 ∧
    iterations (ResolveSymlinks fs isDir path).2 = 0 := by
  have hcalls : (ResolveSymlinks fs isDir path).2 = [Call.evalSymlinks path, Call.lstat r] := by
    cases h : fs.Lstat r <;> simp [ResolveSymlinks, hprim, h]
  refine ⟨?_, ?_, hcalls, ?_, ?_⟩
  · intro info h
    simp [ResolveSymlinks, hprim, h]
  · intro statErr h
    simp [ResolveSymlinks, hprim, h]
  · rw [hcalls]; rfl
  · rw [hcalls]; rfl

/-- C6, on the entries of the tests: `file.link -> file.txt` resolves to the canonical
`file.txt` as a file, and `dir.link -> sub` to the canonical `sub` as a directory. -/
theorem ResolveSymlinks_primary_witness :
    (ResolveSymlinks fsTest dirBit "/tmp/file.link").1 = ⟨"/tmp/file.txt", false, none⟩ ∧
    (ResolveSymlinks fsTest dirBit "/tmp/dir.link").1 = ⟨"/tmp/sub", true, none⟩ ∧
    (ResolveSymlinks fsTest dirBit "/tmp/dir.link").2
      = [Call.evalSymlinks "/tmp/dir.link", Call.lstat "/tmp/sub"] :=
  ⟨(ResolveSymlinks_primary fsTest dirBit "/tmp/file.link" "/tmp/file.txt" rfl).1
      ⟨"file.txt", 5, 0o644⟩ rfl,
    (ResolveSymlinks_primary fsTest dirBit "/tmp/dir.link" "/tmp/sub" rfl).1
      ⟨"sub", 4096, ModeDir + 0o755⟩ rfl,
    (ResolveSymlinks_primary fsTest dirBit "/tmp/dir.link" "/tmp/sub" rfl).2.2.1⟩

/-- C7 fails as stated: on `fsDotDot` the fallback resolves `/t/a` with success to
`/t/x/f`, and resolving `/t/x/f` returns another path, `/t/y/f`. -/
theorem ResolveSymlinks_fallback_result_moves :
    (∃ e, fsDotDot.EvalSymlinks "/t/a" = .error e) ∧
    (ResolveSymlinks fsDotDot dirBit "/t/a").1 = ⟨"/t/x/f", false, none⟩ ∧
    (ResolveSymlinks fsDotDot dirBit "/t/x/f").1 = ⟨"/t/y/f", false, none⟩ ∧
    (ResolveSymlinks fsDotDot dirBit "/t/x/f").1 ≠ (ResolveSymlinks fsDotDot dirBit "/t/a").1 := by
  refine ⟨⟨_, rfl⟩, by decide, by decide, by decide⟩

/-- C7, amended. A path `p` that is not a symlink and on which `EvalSymlinks` returns `p`
itself or fails is resolved with success to `p` itself, with the classification of its
own `Lstat` result; and when the fallback has resolved some input with success to `q` and
flag `d`, resolving `q` returns `q` and `d` again provided `EvalSymlinks` returns `q`
itself or fails on it. -/
theorem ResolveSymlinks_idempotent (fs : FileSystem) (isDir : OsFileInfo → Bool) :
    (∀ p info, NotSymlink fs p info →
      (fs.EvalSymlinks p = .ok p ∨ ∃ e, fs.EvalSymlinks p = .error e) →
      (ResolveSymlinks fs isDir p).1 = ⟨p, isDir info, none⟩) ∧
    (∀ path e q d, fs.EvalSymlinks path = .error e →
      (ResolveSymlinks fs isDir path).1 = ⟨q, d, none⟩ →
      (fs.EvalSymlinks q = .ok q ∨ ∃ e', fs.EvalSymlinks q = .error e') →
      (ResolveSymlinks fs isDir q).1 = ⟨q, d, none⟩) := by
  have first : ∀ p info, NotSymlink fs p info →
      (fs.EvalSymlinks p = .ok p ∨ ∃ e, fs.EvalSymlinks p = .error e) →
      (ResolveSymlinks fs isDir p).1 = ⟨p, isDir info, none⟩ := by
    intro p info hns hcanon
    rcases hcanon with h | ⟨e, h⟩
    · simp [ResolveSymlinks, h, hns.1]
    · rw [ResolveSymlinks_fallback fs isDir p e h]
      exact fallbackLoop_done fs isDir p 63 [] p info (List.not_mem_nil _) hns
  refine ⟨first, ?_⟩
  intro path e q d hprim hres hcanon
  rw [ResolveSymlinks_fallback fs isDir path e hprim] at hres
  obtain ⟨k, _, p, info, _, _, hend, hout⟩ :=
    fallbackLoop_success fs isDir path 64 [] path (by rw [hres])
  rw [hres] at hout
  injection hout with hq hd _
  rw [hq, hd]
  rw [hq] at hcanon
  exact first (p k) info hend hcanon

/-- C7, amended, on the entries of the tests with a canonicalization that fails: the
directory `sub` resolves to itself, and so does the result `sub` of resolving
`dir.link`. -/
theorem ResolveSymlinks_idempotent_witness :
    (ResolveSymlinks fsTestNoEval dirBit "/tmp/sub").1
      = ⟨"/tmp/sub", dirBit ⟨"sub", 4096, ModeDir + 0o755⟩, none⟩ ∧
    ((ResolveSymlinks fsTestNoEval dirBit "/tmp/dir.link").1 = ⟨"/tmp/sub", true, none⟩ ∧
      (ResolveSymlinks fsTestNoEval dirBit "/tmp/sub").1 = ⟨"/tmp/sub", true, none⟩) :=
  ⟨(ResolveSymlinks_idempotent fsTestNoEval dirBit).1 "/tmp/sub"
      ⟨"sub", 4096, ModeDir + 0o755⟩ ⟨rfl, by decide⟩ (Or.inr ⟨_, rfl⟩),
    by decide,
    (ResolveSymlinks_idempotent fsTestNoEval dirBit).2 "/tmp/dir.link" "permission denied"
      "/tmp/sub" true rfl (by decide) (Or.inr ⟨_, rfl⟩)⟩

/-- C8. When `EvalSymlinks` fails on the input: 64 pairwise distinct readable symlinks
`p 0 = path`, ..., `p 63` end in the error `too many symlink hops resolving:` naming the
input `path`; 63 of them followed by a path `p 63` that is lstat-able and not a symlink end
in success with `p 63`; and the call succeeds exactly when a chain of at most 63 hops over
readable symlinks leads from the input to a path that is lstat-able and not a symlink. -/
theorem ResolveSymlinks_hop_budget (fs : FileSystem) (isDir : OsFileInfo → Bool)
    (path e : String) (hprim : fs.EvalSymlinks path = .error e) :
    (∀ p : Nat → String, p 0 = path →
      (∀ i, i < 64 → SymlinkHop fs (p i) (p (i + 1))) →
      (∀ i j, i < j → j < 64 → p i ≠ p j) →
      (ResolveSymlinks fs isDir path).1
        = ⟨p 64, false, some ("too many symlink hops resolving: " ++ path)⟩) ∧
    (∀ (p : Nat → String) (info : OsFileInfo), p 0 = path →
      (∀ i, i < 63 → SymlinkHop fs (p i) (p (i + 1))) →
      (∀ i j, i < j → j < 63 → p i ≠ p j) →
      NotSymlink fs (p 63) info →
      (ResolveSymlinks fs isDir path).1 = ⟨p 63, isDir info, none⟩) ∧
    ((ResolveSymlinks fs isDir path).1.err = none ↔
      ∃ k, k ≤ 63 ∧ ∃ (p : Nat → String) (info : OsFileInfo), p 0 = path ∧
        (∀ i, i < k → SymlinkHop fs (p i) (p (i + 1))) ∧ NotSymlink fs (p k) info) := by
  have hfb := ResolveSymlinks_fallback fs isDir path e hprim
  refine ⟨?_, ?_, ?_, ?_⟩
  · intro p hp0 hhop hne
    obtain ⟨seen', _, heq⟩ := fallbackLoop_follow fs isDir path 0 64 [] p hhop
      (fun i _ => List.not_mem_nil _) hne
    rw [show 0 + 64 = 64 from rfl, hp0] at heq
    rw [hfb, heq]
    simp [fallbackLoop]
  · intro p info hp0 hhop _ hend
    have h := fallbackLoop_reach fs isDir path 64 63 p info (by decide) hhop hend
    rw [hp0] at h
    rw [hfb, h]
  · intro h
    rw [hfb] at h
    obtain ⟨k, hk, p, info, hp0, hhop, hend, _⟩ :=
      fallbackLoop_success fs isDir path 64 [] path h
    exact ⟨k, Nat.le_of_lt_succ hk, p, info, hp0, hhop, hend⟩
  · rintro ⟨k, hk, p, info, hp0, hhop, hend⟩
    have h := fallbackLoop_reach fs isDir path 64 k p info (Nat.lt_succ_of_le hk) hhop hend
    rw [hp0] at h
    rw [hfb, h]

/-- C10. When `EvalSymlinks` fails on the input and `ResolveSymlinks` returns the path
`q` and the flag `d` without error, `q` is reached from the input by fewer than 64 hops
over readable symlinks, `Lstat` of `q` succeeds and reports no symlink, and `d` is the
classification of that `Lstat` result of `q`. -/
theorem ResolveSymlinks_fallback_success (fs : FileSystem) (isDir : OsFileInfo → Bool)
    (path e q : String) (d : Bool) (hprim : fs.EvalSymlinks path = .error e)
    (hres : (ResolveSymlinks fs isDir path).1 = ⟨q, d, none⟩) :
    ∃ k, k < 64 ∧ ∃ (p : Nat → String) (info : OsFileInfo), p 0 = path ∧ p k = q ∧
      (∀ i, i < k → SymlinkHop fs (p i) (p (i + 1))) ∧
      NotSymlink fs q info ∧ d = isDir info := by
  rw [ResolveSymlinks_fallback fs isDir path e hprim] at hres
  obtain ⟨k, hk, p, info, hp0, hhop, hend, hout⟩ :=
    fallbackLoop_success fs isDir path 64 [] path (by rw [hres])
  rw [hres] at hout
  injection hout with hq hd _
  refine ⟨k, hk, p, info, hp0, hq.symm, hhop, ?_, hd⟩
  rw [hq]
  exact hend

/-- C10, on `dir.link -> sub` with a canonicalization that fails: the fallback returns
`sub` and the flag true, and the chain and `Lstat` result exist; the flag is the
classification of `sub`, while the `Lstat` result of the input `dir.link` is classified
false. -/
theorem ResolveSymlinks_fallback_success_witness :
    (ResolveSymlinks fsTestNoEval dirBit "/tmp/dir.link").1 = ⟨"/tmp/sub", true, none⟩ ∧
    (fsTestNoEval.Lstat "/tmp/dir.link").toOption.map dirBit = some false ∧
    ∃ k, k < 64 ∧ ∃ (p : Nat → String) (info : OsFileInfo),
      p 0 = "/tmp/dir.link" ∧ p k = "/tmp/sub" ∧
      (∀ i, i < k → SymlinkHop fsTestNoEval (p i) (p (i + 1))) ∧
      NotSymlink fsTestNoEval "/tmp/sub" info ∧ true = dirBit info :=
  ⟨by decide, by decide,
    ResolveSymlinks_fallback_success fsTestNoEval dirBit "/tmp/dir.link" "permission denied"
      "/tmp/sub" true rfl (by decide)⟩

/-- C8, on nested links `l -> x/l`: when every `l` is a link the call stops after 64
hops with the error naming the input `/l`, and when the entry reached by the hop of index
63 is a regular file the call succeeds with it. -/
theorem ResolveSymlinks_hop_budget_witness :
    (ResolveSymlinks (fsChain 100) dirBit "/l").1
      = ⟨chainPath 64, false, some ("too many symlink hops resolving: " ++ "/l")⟩ ∧
    (ResolveSymlinks (fsChain 63) dirBit "/l").1 = ⟨chainPath 63, dirBit ⟨"l", 5, 0o644⟩, none⟩ ∧
    (ResolveSymlinks (fsChain 64) dirBit "/l").1.err ≠ none :=
  ⟨(ResolveSymlinks_hop_budget (fsChain 100) dirBit "/l" "EvalSymlinks: too many links" rfl).1
      chainPath rfl
      (fun i hi => fsChain_hop 100 i hi (by omega))
      (fun i j hij _ h => absurd (chainPath_injective h) (by omega)),
    (ResolveSymlinks_hop_budget (fsChain 63) dirBit "/l" "EvalSymlinks: too many links" rfl).2.1
      chainPath ⟨"l", 5, 0o644⟩ rfl
      (fun i hi => fsChain_hop 63 i (by omega) (by omega))
      (fun i j hij _ h => absurd (chainPath_injective h) (by omega))
      ⟨by simp [fsChain], by decide⟩,
    by decide⟩

/-! ## Properties of `SortItems` -/

/-- C3. When the key of every name in `Files` parses as an integer, `SortItems` leaves in
`Files` a permutation of the original entries in which the keys stand in non-decreasing
numeric order. -/
theorem SortItems_numeric_order
    (sortSlice : List ItemInfo → (ItemInfo → ItemInfo → Bool) → List ItemInfo)
    (hsort : SortSliceContract sortSlice) (lowerRune : Char → Char) (info : FileInfo)
    (hnum : ∀ e ∈ info.Files, ∃ n, Atoi (nameWithoutExt e.Name) = some n) :
    (SortItems sortSlice lowerRune info).Files.Perm info.Files ∧
    (SortItems sortSlice lowerRune info).Files.Pairwise fun a b =>
      ∃ x y, Atoi (nameWithoutExt a.Name) = some x ∧ Atoi (nameWithoutExt b.Name) = some y ∧
        x ≤ y := by
  obtain ⟨hperm, hsorted⟩ := hsort info.Files (less lowerRune)
  have hswo : StrictWeakOn (less lowerRune) info.Files := by
    refine ⟨?_, ?_, ?_⟩
    · intro a ha
      obtain ⟨x, hx⟩ := hnum a ha
      rw [less_numeric lowerRune a a x x hx hx]
      simp
    · intro a ha b hb c hc
      obtain ⟨x, hx⟩ := hnum a ha
      obtain ⟨y, hy⟩ := hnum b hb
      obtain ⟨z, hz⟩ := hnum c hc
      rw [less_numeric lowerRune a b x y hx hy, less_numeric lowerRune b c y z hy hz,
        less_numeric lowerRune a c x z hx hz]
      simp only [decide_eq_true_eq]
      exact fun h1 h2 => lt_trans h1 h2
    · intro a ha b hb c hc
      obtain ⟨x, hx⟩ := hnum a ha
      obtain ⟨y, hy⟩ := hnum b hb
      obtain ⟨z, hz⟩ := hnum c hc
      rw [less_numeric lowerRune a b x y hx hy, less_numeric lowerRune b c y z hy hz,
        less_numeric lowerRune a c x z hx hz]
      simp only [decide_eq_false_iff_not, not_lt]
      exact fun h1 h2 => le_trans h2 h1
  refine ⟨hperm, ?_⟩
  refine List.Pairwise.imp_of_mem ?_ (hsorted hswo)
  intro a b ha hb hab
  obtain ⟨x, hx⟩ := hnum a (hperm.mem_iff.mp ha)
  obtain ⟨y, hy⟩ := hnum b (hperm.mem_iff.mp hb)
  rw [less_numeric lowerRune b a y x hy hx] at hab
  exact ⟨x, y, hx, hy, by simpa using hab⟩

/-- C3, on the names `10.mp4`, `2.mp4`, `1.mp4`, which become `1.mp4`, `2.mp4`,
`10.mp4`. -/
theorem SortItems_numeric_order_witness :
    (SortItems insertionSort asciiLower
        ⟨"/", [], [named "10.mp4", named "2.mp4", named "1.mp4"]⟩).Files
      = [named "1.mp4", named "2.mp4", named "10.mp4"] ∧
    ((SortItems insertionSort asciiLower
        ⟨"/", [], [named "10.mp4", named "2.mp4", named "1.mp4"]⟩).Files.Perm
        [named "10.mp4", named "2.mp4", named "1.mp4"] ∧
      (SortItems insertionSort asciiLower
        ⟨"/", [], [named "10.mp4", named "2.mp4", named "1.mp4"]⟩).Files.Pairwise fun a b =>
        ∃ x y, Atoi (nameWithoutExt a.Name) = some x ∧
          Atoi (nameWithoutExt b.Name) = some y ∧ x ≤ y) :=
  ⟨by decide,
    SortItems_numeric_order insertionSort insertionSort_contract asciiLower
      ⟨"/", [], [named "10.mp4", named "2.mp4", named "1.mp4"]⟩
      (by
        intro e he
        simp only [List.mem_cons, List.mem_singleton, List.not_mem_nil, or_false] at he
        rcases he with h | h | h
        · exact ⟨10, by rw [h]; decide⟩
        · exact ⟨2, by rw [h]; decide⟩
        · exact ⟨1, by rw [h]; decide⟩)⟩

/-- At the names `2`, `10`, `1a` the comparator puts `2` before `10` by value, `10`
before `1a` and `1a` before `2` by the lower-cased names, and not `2` before `1a`; it is
not transitive, so not a strict weak ordering on these names. -/
theorem less_cycle (lowerRune : Char → Char) (hl : LowersAscii lowerRune) :
    less lowerRune (named "2") (named "10") = true ∧
    less lowerRune (named "10") (named "1a") = true ∧
    less lowerRune (named "1a") (named "2") = true ∧
    less lowerRune (named "2") (named "1a") = false ∧
    ¬ StrictWeakOn (less lowerRune) [named "2", named "10", named "1a"] := by
  have h1 : less lowerRune (named "2") (named "10") = true := by
    rw [less_ascii lowerRune hl _ _ (by decide) (by decide)]; decide
  have h2 : less lowerRune (named "10") (named "1a") = true := by
    rw [less_ascii lowerRune hl _ _ (by decide) (by decide)]; decide
  have h3 : less lowerRune (named "1a") (named "2") = true := by
    rw [less_ascii lowerRune hl _ _ (by decide) (by decide)]; decide
  have h4 : less lowerRune (named "2") (named "1a") = false := by
    rw [less_ascii lowerRune hl _ _ (by decide) (by decide)]; decide
  refine ⟨h1, h2, h3, h4, ?_⟩
  rintro ⟨_, htrans, _⟩
  have := htrans (named "2") (by simp) (named "10") (by simp) (named "1a") (by simp) h1 h2
  rw [h4] at this
  exact absurd this (by simp)

/-- C4 fails as stated: at the names `2`, `10`, `1a` the comparator puts `2` before `10`
by value, `10` before `1a` and `1a` before `2` by the lower-cased names, and not `2`
before `1a`, so it is not transitive and not a strict weak order. The insertion sort of
`sort.Slice` then leaves the three entries as they stand both in the order `2`, `10`,
`1a` and in the order `10`, `1a`, `2`. -/
theorem less_not_transitive :
    (less asciiLower (named "2") (named "10") = true ∧
      less asciiLower (named "10") (named "1a") = true ∧
      less asciiLower (named "1a") (named "2") = true ∧
      less asciiLower (named "2") (named "1a") = false ∧
      ¬ StrictWeakOn (less asciiLower) [named "2", named "10", named "1a"]) ∧
    (SortItems insertionSort asciiLower ⟨"/", [], [named "2", named "10", named "1a"]⟩).Files
      = [named "2", named "10", named "1a"] ∧
    (SortItems insertionSort asciiLower ⟨"/", [], [named "10", named "1a", named "2"]⟩).Files
      = [named "10", named "1a", named "2"] :=
  ⟨less_cycle asciiLower asciiLower_lowersAscii, by decide, by decide⟩

/-- C9. Whatever the initial order of entries named `b.txt`, `A.txt`, `10.txt`, `2.txt`
in `Files`, `SortItems` leaves them in the order `2.txt`, `10.txt`, `A.txt`, `b.txt`. -/
theorem SortItems_mixed_order
    (sortSlice : List ItemInfo → (ItemInfo → ItemInfo → Bool) → List ItemInfo)
    (hsort : SortSliceContract sortSlice) (lowerRune : Char → Char)
    (hl : LowersAscii lowerRune) (info : FileInfo)
    (hfiles : (info.Files.map ItemInfo.Name).Perm mixedNames) :
    (SortItems sortSlice lowerRune info).Files.map ItemInfo.Name
      = ["2.txt", "10.txt", "A.txt", "b.txt"] := by
  obtain ⟨hascii, hirr, htrans, hneg, hanti⟩ := mixedNames_order
  obtain ⟨hperm, hsorted⟩ := hsort info.Files (less lowerRune)
  have hname : ∀ e ∈ info.Files, e.Name ∈ mixedNames :=
    fun e he => hfiles.mem_iff.mp (List.mem_map_of_mem _ he)
  have hless : ∀ a ∈ info.Files, ∀ b ∈ info.Files,
      less lowerRune a b = less asciiLower (named a.Name) (named b.Name) := by
    intro a ha b hb
    rw [less_ascii lowerRune hl a b (hascii _ (hname a ha)) (hascii _ (hname b hb))]
    exact less_of_names asciiLower a b _ _ rfl rfl
  have hswo : StrictWeakOn (less lowerRune) info.Files := by
    refine ⟨?_, ?_, ?_⟩
    · intro a ha
      rw [hless a ha a ha]
      exact hirr _ (hname a ha)
    · intro a ha b hb c hc
      rw [hless a ha b hb, hless b hb c hc, hless a ha c hc]
      exact htrans _ (hname a ha) _ (hname b hb) _ (hname c hc)
    · intro a ha b hb c hc
      rw [hless a ha b hb, hless b hb c hc, hless a ha c hc]
      exact hneg _ (hname a ha) _ (hname b hb) _ (hname c hc)
  haveI : IsAntisymm String mixedOrder :=
    ⟨fun a b hab hba => hanti a hab.1 b hab.2.1 hab.2.2 hba.2.2⟩
  have hout : ((sortSlice info.Files (less lowerRune)).map ItemInfo.Name).Perm
      ["2.txt", "10.txt", "A.txt", "b.txt"] :=
    ((hperm.map ItemInfo.Name).trans hfiles).trans (by decide)
  have hs1 : ((sortSlice info.Files (less lowerRune)).map ItemInfo.Name).Sorted mixedOrder := by
    unfold List.Sorted
    rw [List.pairwise_map]
    refine List.Pairwise.imp_of_mem ?_ (hsorted hswo)
    intro a b ha hb hab
    have ha' := hperm.mem_iff.mp ha
    have hb' := hperm.mem_iff.mp hb
    rw [hless b hb' a ha'] at hab
    exact ⟨hname a ha', hname b hb', hab⟩
  have hs2 : (["2.txt", "10.txt", "A.txt", "b.txt"] : List String).Sorted mixedOrder := by
    unfold List.Sorted mixedOrder
    simp only [List.pairwise_cons, List.mem_cons, List.mem_singleton, List.not_mem_nil,
      forall_eq_or_imp, forall_eq, List.Pairwise.nil, and_true, or_false, IsEmpty.forall_iff,
      implies_true]
    decide
  exact List.eq_of_perm_of_sorted hout hs1 hs2

/-- C9, with the insertion sort that `sort.Slice` runs on four elements, from the order
of the example and from the sorted order reversed. -/
theorem SortItems_mixed_order_witness :
    (SortItems insertionSort asciiLower
        ⟨"/", [], [named "b.txt", named "A.txt", named "10.txt", named "2.txt"]⟩).Files.map
        ItemInfo.Name = ["2.txt", "10.txt", "A.txt", "b.txt"] ∧
    (SortItems insertionSort asciiLower
        ⟨"/", [], [named "b.txt", named "A.txt", named "2.txt", named "10.txt"]⟩).Files.map
        ItemInfo.Name = ["2.txt", "10.txt", "A.txt", "b.txt"] :=
  ⟨SortItems_mixed_order insertionSort insertionSort_contract asciiLower asciiLower_lowersAscii
      ⟨"/", [], [named "b.txt", named "A.txt", named "10.txt", named "2.txt"]⟩
      (List.Perm.refl _),
    SortItems_mixed_order insertionSort insertionSort_contract asciiLower asciiLower_lowersAscii
      ⟨"/", [], [named "b.txt", named "A.txt", named "2.txt", named "10.txt"]⟩
      (by decide)⟩

/-! ## Further lemmas on the comparator -/

theorem stringLess_irrefl : ∀ a : List Char, stringLess a a = false
  | [] => rfl
  | c :: cs => by simp [stringLess, stringLess_irrefl cs]

theorem stringLess_asymm : ∀ a b : List Char, stringLess a b = true → stringLess b a = false
  | [], [], h => by simp [stringLess] at h
  | [], _ :: _, _ => rfl
  | _ :: _, [], h => by simp [stringLess] at h
  | a :: as, b :: bs, h => by
    unfold stringLess at h ⊢
    by_cases h1 : a.toNat < b.toNat
    · have h2 : ¬ b.toNat < a.toNat := by omega
      simp [h1, h2]
    · by_cases h2 : b.toNat < a.toNat
      · simp [h1, h2] at h
      · simp only [h1, h2, if_false] at h ⊢
        exact stringLess_asymm as bs h

theorem Char_eq_of_toNat (a b : Char) (h1 : ¬ a.toNat < b.toNat) (h2 : ¬ b.toNat < a.toNat) :
    a = b :=
  Char.ext (UInt32.ext (by
    have h : a.toNat = b.toNat := by omega
    exact h))

/-- The comparison `stringLess` is the lexicographic order of the code points. -/
theorem stringLess_iff_lex : ∀ a b : List Char,
    stringLess a b = true ↔ List.Lex (fun x y : Char => x.toNat < y.toNat) a b
  | [], [] => by
    constructor
    · intro h; simp [stringLess] at h
    · intro h; cases h
  | [], b :: bs => by
    constructor
    · intro _; exact List.Lex.nil
    · intro _; rfl
  | a :: as, [] => by
    constructor
    · intro h; simp [stringLess] at h
    · intro h; cases h
  | a :: as, b :: bs => by
    unfold stringLess
    by_cases h1 : a.toNat < b.toNat
    · simp only [h1, if_true, true_iff]
      exact List.Lex.rel h1
    · by_cases h2 : b.toNat < a.toNat
      · simp only [h1, h2, if_false, if_true]
        constructor
        · intro h; exact absurd h (by simp)
        · intro h
          cases h with
          | rel hab => exact absurd hab h1
          | cons _ => exact absurd h2 (by omega)
      · simp only [h1, h2, if_false]
        rw [stringLess_iff_lex as bs]
        constructor
        · intro h
          rw [Char_eq_of_toNat a b h1 h2]
          exact List.Lex.cons h
        · intro h
          cases h with
          | rel hab => exact absurd hab h1
          | cons h => exact h

/-- When one of the two keys does not parse the comparator compares the lower-cased
names. -/
theorem less_lexical (lowerRune : Char → Char) (a b : ItemInfo)
    (h : Atoi (nameWithoutExt a.Name) = none ∨ Atoi (nameWithoutExt b.Name) = none) :
    less lowerRune a b
      = stringLess (ToLower lowerRune a.Name).data (ToLower lowerRune b.Name).data := by
  unfold less
  rcases h with h | h
  · rw [h]
  · rw [h]
    cases Atoi (nameWithoutExt a.Name) <;> rfl

/-- A key of decimal digits only, of value below `2 ^ 63`, is parsed by `Atoi` to its
value. -/
theorem Atoi_digits (key : String) (x : Nat) (hne : key.data ≠ [])
    (hdigits : parseDigits key.data 0 = some x) (hx : x < 2 ^ 63) :
    Atoi key = some (x : Int) := by
  unfold Atoi
  cases hk : key.data with
  | nil => exact absurd hk hne
  | cons c cs =>
    rw [hk] at hdigits
    have hc : 48 ≤ c.toNat ∧ c.toNat ≤ 57 := by
      by_contra hcon
      simp [parseDigits, hcon] at hdigits
    have hminus : c ≠ '-' := by
      intro h
      rw [h] at hc
      exact absurd hc (by decide)
    have hplus : c ≠ '+' := by
      intro h
      rw [h] at hc
      exact absurd hc (by decide)
    have hx' : x < 9223372036854775808 := by
      have h63 : (2 : Nat) ^ 63 = 9223372036854775808 := by norm_num
      omega
    simp [hminus, hplus, hdigits, hx']

theorem HasPrefix_iff (s pre : String) :
    HasPrefix s pre = true ↔ ∃ rest, s.data = pre.data ++ rest := by
  unfold HasPrefix
  rw [List.isPrefixOf_iff_prefix]
  constructor
  · rintro ⟨t, ht⟩; exact ⟨t, ht.symm⟩
  · rintro ⟨t, ht⟩; exact ⟨t, ht.symm⟩

/-! ## Properties of the comparator and of `DetectSubtitles` -/

/-- C11 fails as stated: the keys `99999999999999999999` and `100000000000000000000` are
decimal digits only, the value of the first is the lower one, neither is parsed by `Atoi`,
and the comparator puts the second before the first. -/
theorem less_big_keys :
    parseDigits (nameWithoutExt "99999999999999999999").data 0 = some 99999999999999999999 ∧
    parseDigits (nameWithoutExt "100000000000000000000").data 0
      = some 100000000000000000000 ∧
    Atoi (nameWithoutExt "99999999999999999999") = none ∧
    Atoi (nameWithoutExt "100000000000000000000") = none ∧
    less asciiLower (named "99999999999999999999") (named "100000000000000000000") = false ∧
    less asciiLower (named "100000000000000000000") (named "99999999999999999999") = true ∧
    ¬ (less asciiLower (named "99999999999999999999") (named "100000000000000000000") = true ↔
      (99999999999999999999 : Int) < 100000000000000000000) := by
  refine ⟨by decide, by decide, by decide, by decide, by decide, by decide, ?_⟩
  intro h
  have h1 : less asciiLower (named "99999999999999999999")
      (named "100000000000000000000") = false := by decide
  rw [h1] at h
  exact absurd (h.mpr (by decide)) (by simp)

/-- C11, amended. For two names whose keys are decimal digits only, with values `x` and
`y` below `2 ^ 63`, the comparator puts the first before the second exactly when
`x < y`. -/
theorem less_digit_keys (lowerRune : Char → Char) (a b : ItemInfo) (x y : Nat)
    (hane : (nameWithoutExt a.Name).data ≠ []) (hbne : (nameWithoutExt b.Name).data ≠ [])
    (ha : parseDigits (nameWithoutExt a.Name).data 0 = some x)
    (hb : parseDigits (nameWithoutExt b.Name).data 0 = some y)
    (hx : x < 2 ^ 63) (hy : y < 2 ^ 63) :
    less lowerRune a b = true ↔ x < y := by
  rw [less_numeric lowerRune a b x y (Atoi_digits _ x hane ha hx) (Atoi_digits _ y hbne hb hy)]
  simp

/-- C11, amended, on the keys `9223372036854775806` and `9223372036854775807`, the two
largest below `2 ^ 63`, and on `2` and `10`. -/
theorem less_digit_keys_witness :
    (less asciiLower (named "9223372036854775806.a") (named "9223372036854775807.a") = true ↔
      9223372036854775806 < 9223372036854775807) ∧
    (less asciiLower (named "10.mp4") (named "2.mp4") = true ↔ 10 < 2) :=
  ⟨less_digit_keys asciiLower (named "9223372036854775806.a") (named "9223372036854775807.a")
      9223372036854775806 9223372036854775807 (by decide) (by decide) (by decide) (by decide)
      (by decide) (by decide),
    less_digit_keys asciiLower (named "10.mp4") (named "2.mp4") 10 2 (by decide) (by decide)
      (by decide) (by decide) (by decide) (by decide)⟩

/-- C13. `SortItems` leaves in `Folders` a permutation of `Folders` and in `Files` a
permutation of `Files`, and nothing else changes; each of the two is the result of
`sort.Slice` on that sequence alone with the one comparator `less`, so that the order of
`Folders` depends on the input `Folders` only and the order of `Files` on the input
`Files` only. -/
theorem SortItems_frame
    (sortSlice : List ItemInfo → (ItemInfo → ItemInfo → Bool) → List ItemInfo)
    (hsort : SortSliceContract sortSlice) (lowerRune : Char → Char) (info : FileInfo) :
    (SortItems sortSlice lowerRune info).Folders.Perm info.Folders ∧
    (SortItems sortSlice lowerRune info).Files.Perm info.Files ∧
    (SortItems sortSlice lowerRune info).Path = info.Path ∧
    (SortItems sortSlice lowerRune info).Folders = sortSlice info.Folders (less lowerRune) ∧
    (SortItems sortSlice lowerRune info).Files = sortSlice info.Files (less lowerRune) ∧
    (∀ other : FileInfo, other.Folders = info.Folders →
      (SortItems sortSlice lowerRune other).Folders
        = (SortItems sortSlice lowerRune info).Folders) ∧
    (∀ other : FileInfo, other.Files = info.Files →
      (SortItems sortSlice lowerRune other).Files
        = (SortItems sortSlice lowerRune info).Files) := by
  refine ⟨(hsort info.Folders (less lowerRune)).1, (hsort info.Files (less lowerRune)).1,
    rfl, rfl, rfl, ?_, ?_⟩
  · intro other h
    simp only [SortItems, h]
  · intro other h
    simp only [SortItems, h]

/-- C13, with the insertion sort, on a folder and a file of the same name: the folder
stays in `Folders` and the file in `Files`. -/
theorem SortItems_frame_witness :
    (SortItems insertionSort asciiLower
        ⟨"/d", [⟨"b", 4096, 7, "directory"⟩, ⟨"a", 4096, 8, "directory"⟩],
          [⟨"b", 1, 9, "text"⟩, ⟨"10", 2, 9, "text"⟩, ⟨"9", 3, 9, "text"⟩]⟩)
      = ⟨"/d", [⟨"a", 4096, 8, "directory"⟩, ⟨"b", 4096, 7, "directory"⟩],
          [⟨"9", 3, 9, "text"⟩, ⟨"10", 2, 9, "text"⟩, ⟨"b", 1, 9, "text"⟩]⟩ ∧
    (SortItems insertionSort asciiLower
        ⟨"/d", [⟨"b", 4096, 7, "directory"⟩, ⟨"a", 4096, 8, "directory"⟩],
          [⟨"b", 1, 9, "text"⟩, ⟨"10", 2, 9, "text"⟩, ⟨"9", 3, 9, "text"⟩]⟩).Folders.Perm
      [⟨"b", 4096, 7, "directory"⟩, ⟨"a", 4096, 8, "directory"⟩] :=
  ⟨by decide,
    (SortItems_frame insertionSort insertionSort_contract asciiLower
      ⟨"/d", [⟨"b", 4096, 7, "directory"⟩, ⟨"a", 4096, 8, "directory"⟩],
        [⟨"b", 1, 9, "text"⟩, ⟨"10", 2, 9, "text"⟩, ⟨"9", 3, 9, "text"⟩]⟩).1⟩

/-- C14. `DetectSubtitles` calls the subtitle detection of the media prober exactly when
the type of the item has the prefix `video`. Without the prefix the item is returned as it
is and the only call is the log message; with it, `Subtitles` becomes what the prober
returns for the real path, the directory of the real path and the modification time, that
is the only call, and no other field changes. The method has no error to return. -/
theorem DetectSubtitles_gating
    (DetectAllSubtitles : String → String → Int → List SubtitleTrack)
    (i : ExtendedFileInfo) (parentInfo : FileInfo) :
    ((∃ realPath parentDir modTime, Delegation.detectAllSubtitles realPath parentDir modTime
        ∈ (DetectSubtitles DetectAllSubtitles i parentInfo).2) ↔
      ∃ rest, i.FileType.data = "video".data ++ rest) ∧
    ((¬ ∃ rest, i.FileType.data = "video".data ++ rest) →
      DetectSubtitles DetectAllSubtitles i parentInfo
        = (i, [Delegation.loggerDebug
            ("subtitles are not supported for this file : " ++ i.Name)])) ∧
    ((∃ rest, i.FileType.data = "video".data ++ rest) →
      DetectSubtitles DetectAllSubtitles i parentInfo
        = ({ i with Subtitles := DetectAllSubtitles i.RealPath (Dir i.RealPath) i.ModTime },
            [Delegation.detectAllSubtitles i.RealPath (Dir i.RealPath) i.ModTime])) := by
  rw [← HasPrefix_iff]
  cases h : HasPrefix i.FileType "video" with
  | false =>
    refine ⟨?_, ?_, ?_⟩
    · simp [DetectSubtitles, h]
    · intro _
      simp [DetectSubtitles, h]
    · intro hcon
      exact absurd hcon (by simp)
  | true =>
    refine ⟨?_, ?_, ?_⟩
    · simp [DetectSubtitles, h]
    · intro hcon
      exact absurd rfl hcon
    · intro _
      simp [DetectSubtitles, h]

/-- C14, on items of type `audio`, `document` and `video/mp4`, with a prober that returns
one external track named after the directory it is given. -/
theorem DetectSubtitles_gating_witness :
    (DetectSubtitles (fun _ dir _ => [⟨dir, "en", "", none, "", true⟩])
        ⟨"a.mp3", 1, 2, "audio", "/a.mp3", "/srv/m/a.mp3", "", []⟩ ⟨"/", [], []⟩
      = (⟨"a.mp3", 1, 2, "audio", "/a.mp3", "/srv/m/a.mp3", "", []⟩,
          [Delegation.loggerDebug "subtitles are not supported for this file : a.mp3"])) ∧
    (DetectSubtitles (fun _ dir _ => [⟨dir, "en", "", none, "", true⟩])
        ⟨"d.pdf", 1, 2, "document", "/d.pdf", "/srv/m/d.pdf", "", []⟩ ⟨"/", [], []⟩).1
      = ⟨"d.pdf", 1, 2, "document", "/d.pdf", "/srv/m/d.pdf", "", []⟩ ∧
    (DetectSubtitles (fun _ dir _ => [⟨dir, "en", "", none, "", true⟩])
        ⟨"v.mp4", 1, 2, "video/mp4", "/v.mp4", "/srv/m/v.mp4", "", []⟩ ⟨"/", [], []⟩
      = (⟨"v.mp4", 1, 2, "video/mp4", "/v.mp4", "/srv/m/v.mp4", "",
            [⟨"/srv/m", "en", "", none, "", true⟩]⟩,
          [Delegation.detectAllSubtitles "/srv/m/v.mp4" "/srv/m" 2])) :=
  ⟨(DetectSubtitles_gating (fun _ dir _ => [⟨dir, "en", "", none, "", true⟩])
      ⟨"a.mp3", 1, 2, "audio", "/a.mp3", "/srv/m/a.mp3", "", []⟩ ⟨"/", [], []⟩).2.1
      (by rw [← HasPrefix_iff]; decide),
    by decide,
    by decide⟩

/-- C16. The key of every name is the part of the name before its first `.`, the whole
name when it has none; and whenever the key of one of the two names is not parsed by
`Atoi`, the comparator puts `a` before `b` exactly when the lower-cased name of `a` is
less than the lower-cased name of `b` in the lexicographic order of the code points. The
comparator is a total function. -/
theorem less_fallback_rule (lowerRune : Char → Char) :
    (∀ name : String, ∃ rest, name.data = (nameWithoutExt name).data ++ rest ∧
      '.' ∉ (nameWithoutExt name).data ∧ (rest = [] ∨ ∃ tail, rest = '.' :: tail)) ∧
    (∀ name : String, '.' ∉ name.data → nameWithoutExt name = name) ∧
    (∀ a b : ItemInfo,
      (Atoi (nameWithoutExt a.Name) = none ∨ Atoi (nameWithoutExt b.Name) = none) →
      (less lowerRune a b = true ↔
        List.Lex (fun x y : Char => x.toNat < y.toNat)
          (ToLower lowerRune a.Name).data (ToLower lowerRune b.Name).data)) := by
  have key : ∀ l : List Char, ∃ rest, l = l.takeWhile (fun c => c != '.') ++ rest ∧
      '.' ∉ l.takeWhile (fun c => c != '.') ∧ (rest = [] ∨ ∃ tail, rest = '.' :: tail) := by
    intro l
    induction l with
    | nil => exact ⟨[], by simp⟩
    | cons c cs ih =>
      by_cases hc : c = '.'
      · exact ⟨c :: cs, by simp [List.takeWhile, hc]⟩
      · obtain ⟨rest, h1, h2, h3⟩ := ih
        have hb : (c != '.') = true := by simp [hc]
        refine ⟨rest, ?_, ?_, h3⟩
        · rw [List.takeWhile_cons, if_pos hb, List.cons_append, ← h1]
        · rw [List.takeWhile_cons, if_pos hb]
          intro hmem
          rcases List.mem_cons.mp hmem with h | h
          · exact hc h.symm
          · exact h2 h
  refine ⟨fun name => key name.data, ?_, ?_⟩
  · intro name hdot
    unfold nameWithoutExt
    have : name.data.takeWhile (fun c => c != '.') = name.data := by
      rw [List.takeWhile_eq_self_iff]
      intro c hc
      simp only [bne_iff_ne, ne_eq]
      intro h
      exact hdot (h ▸ hc)
    rw [this]
  · intro a b h
    rw [less_lexical lowerRune a b h]
    exact stringLess_iff_lex _ _

/-- C16, on names with an empty key, without `.`, and with one numeric key only. -/
theorem less_fallback_rule_witness :
    nameWithoutExt "" = "" ∧ nameWithoutExt ".bashrc" = "" ∧ nameWithoutExt "Makefile" = "Makefile" ∧
    nameWithoutExt "10.tar.gz" = "10" ∧
    (less asciiLower (named "10.txt") (named "A.txt") = true ↔
      List.Lex (fun x y : Char => x.toNat < y.toNat)
        (ToLower asciiLower "10.txt").data (ToLower asciiLower "A.txt").data) ∧
    less asciiLower (named "10.txt") (named "A.txt") = true ∧
    less asciiLower (named ".b") (named "") = false ∧
    less asciiLower (named "") (named ".b") = true :=
  ⟨by decide, by decide, by decide, by decide,
    (less_fallback_rule asciiLower).2.2 (named "10.txt") (named "A.txt") (Or.inr (by decide)),
    by decide, by decide, by decide⟩

/-- C17. The comparator never puts `a` before `b` and `b` before `a`, and never a name
before itself. -/
theorem less_asymmetric (lowerRune : Char → Char) (a b : ItemInfo) :
    ¬ (less lowerRune a b = true ∧ less lowerRune b a = true) ∧ less lowerRune a a = false := by
  constructor
  · rintro ⟨h1, h2⟩
    cases ha : Atoi (nameWithoutExt a.Name) with
    | none =>
      rw [less_lexical lowerRune a b (Or.inl ha)] at h1
      rw [less_lexical lowerRune b a (Or.inr ha)] at h2
      rw [stringLess_asymm _ _ h1] at h2
      exact absurd h2 (by simp)
    | some x =>
      cases hb : Atoi (nameWithoutExt b.Name) with
      | none =>
        rw [less_lexical lowerRune a b (Or.inr hb)] at h1
        rw [less_lexical lowerRune b a (Or.inl hb)] at h2
        rw [stringLess_asymm _ _ h1] at h2
        exact absurd h2 (by simp)
      | some y =>
        rw [less_numeric lowerRune a b x y ha hb] at h1
        rw [less_numeric lowerRune b a y x hb ha] at h2
        simp only [decide_eq_true_eq] at h1 h2
        omega
  · cases ha : Atoi (nameWithoutExt a.Name) with
    | none =>
      rw [less_lexical lowerRune a a (Or.inl ha)]
      exact stringLess_irrefl _
    | some x =>
      rw [less_numeric lowerRune a a x x ha ha]
      simp

/-- C18. Two names whose keys are parsed by `Atoi` to the same value are a tie: the
comparator puts neither before the other, whatever the rest of the names and whatever the
lower-casing table. -/
theorem less_numeric_tie (lowerRune : Char → Char) (a b : ItemInfo) (x : Int)
    (ha : Atoi (nameWithoutExt a.Name) = some x) (hb : Atoi (nameWithoutExt b.Name) = some x) :
    less lowerRune a b = false ∧ less lowerRune b a = false ∧
    ∀ otherRune : Char → Char, less otherRune a b = less lowerRune a b := by
  refine ⟨?_, ?_, ?_⟩
  · rw [less_numeric lowerRune a b x x ha hb]; simp
  · rw [less_numeric lowerRune b a x x hb ha]; simp
  · intro otherRune
    rw [less_numeric lowerRune a b x x ha hb, less_numeric otherRune a b x x ha hb]

/-- C18, on `1.mp4` and `1.srt`, on `01.txt` and `1.txt`, and on `+1.a` and `1.b`. -/
theorem less_numeric_tie_witness :
    (less asciiLower (named "1.mp4") (named "1.srt") = false ∧
      less asciiLower (named "1.srt") (named "1.mp4") = false) ∧
    (less asciiLower (named "01.txt") (named "1.txt") = false ∧
      less asciiLower (named "1.txt") (named "01.txt") = false) ∧
    (less asciiLower (named "+1.a") (named "1.b") = false ∧
      less asciiLower (named "1.b") (named "+1.a") = false) :=
  ⟨⟨(less_numeric_tie asciiLower (named "1.mp4") (named "1.srt") 1 (by decide) (by decide)).1,
      (less_numeric_tie asciiLower (named "1.mp4") (named "1.srt") 1 (by decide) (by decide)).2.1⟩,
    ⟨(less_numeric_tie asciiLower (named "01.txt") (named "1.txt") 1 (by decide) (by decide)).1,
      (less_numeric_tie asciiLower (named "01.txt") (named "1.txt") 1 (by decide) (by decide)).2.1⟩,
    ⟨(less_numeric_tie asciiLower (named "+1.a") (named "1.b") 1 (by decide) (by decide)).1,
      (less_numeric_tie asciiLower (named "+1.a") (named "1.b") 1 (by decide) (by decide)).2.1⟩⟩

/-! ## Failures of `ResolveSymlinks` -/

/-- One iteration on a readable symlink that has not been seen, with its calls. -/
theorem fallbackLoop_hop_calls (fs : FileSystem) (isDir : OsFileInfo → Bool) (path : String)
    (n : Nat) (seen : List String) (p q : String)
    (hseen : p ∉ seen) (h : SymlinkHop fs p q) :
    fallbackLoop fs isDir path (n + 1) seen p
      = ((fallbackLoop fs isDir path n (p :: seen) q).1,
          Call.seenLookup p :: Call.lstat p :: Call.readlink p ::
            (fallbackLoop fs isDir path n (p :: seen) q).2) := by
  obtain ⟨info, target, hl, hm, hr, hq⟩ := h
  simp [fallbackLoop, hseen, hl, hm, hr, hq]

/-- After `k` hops over pairwise distinct readable symlinks, none of them seen before, the
loop has made the calls of these hops and goes on from `p k`. -/
theorem fallbackLoop_follow_calls (fs : FileSystem) (isDir : OsFileInfo → Bool)
    (path : String) : ∀ (k n : Nat) (seen : List String) (p : Nat → String),
    (∀ i, i < k → SymlinkHop fs (p i) (p (i + 1))) →
    (∀ i, i < k → p i ∉ seen) →
    (∀ i j, i < j → j < k → p i ≠ p j) →
    ∃ seen', (∀ x, x ∈ seen' ↔ x ∈ seen ∨ ∃ i, i < k ∧ x = p i) ∧
      fallbackLoop fs isDir path (n + k) seen (p 0)
        = ((fallbackLoop fs isDir path n seen' (p k)).1,
            hopCalls p k ++ (fallbackLoop fs isDir path n seen' (p k)).2) := by
  intro k
  induction k with
  | zero =>
    intro n seen p _ _ _
    exact ⟨seen, by simp, by simp [hopCalls]⟩
  | succ k ih =>
    intro n seen p hhop hseen hne
    obtain ⟨seen', hmem, heq⟩ := ih (n + 1) seen p
      (fun i hi => hhop i (Nat.lt_succ_of_lt hi))
      (fun i hi => hseen i (Nat.lt_succ_of_lt hi))
      (fun i j hij hj => hne i j hij (Nat.lt_succ_of_lt hj))
    have hk : p k ∉ seen' := by
      intro hin
      rcases (hmem (p k)).mp hin with h | ⟨i, hi, hx⟩
      · exact hseen k (Nat.lt_succ_self k) h
      · exact hne i k hi (Nat.lt_succ_self k) hx.symm
    refine ⟨p k :: seen', ?_, ?_⟩
    · intro x
      rw [List.mem_cons, hmem x]
      constructor
      · rintro (h | h | ⟨i, hi, hx⟩)
        · exact Or.inr ⟨k, Nat.lt_succ_self k, h⟩
        · exact Or.inl h
        · exact Or.inr ⟨i, Nat.lt_succ_of_lt hi, hx⟩
      · rintro (h | ⟨i, hi, hx⟩)
        · exact Or.inr (Or.inl h)
        · rcases Nat.lt_succ_iff_lt_or_eq.mp hi with h | h
          · exact Or.inr (Or.inr ⟨i, h, hx⟩)
          · exact Or.inl (by rw [hx, h])
    · rw [show n + (k + 1) = n + 1 + k by omega, heq,
        fallbackLoop_hop_calls fs isDir path n seen' (p k) (p (k + 1)) hk
          (hhop k (Nat.lt_succ_self k))]
      simp [hopCalls]

/-- One iteration on a path that has not been seen and on which `Lstat` fails. -/
theorem fallbackLoop_lstat_error (fs : FileSystem) (isDir : OsFileInfo → Bool) (path : String)
    (n : Nat) (seen : List String) (c lerr : String)
    (hseen : c ∉ seen) (hl : fs.Lstat c = .error lerr) :
    fallbackLoop fs isDir path (n + 1) seen c
      = (⟨c, false, some ("could not stat path: " ++ c ++ ", " ++ lerr)⟩,
          [Call.seenLookup c, Call.lstat c]) := by
  simp [fallbackLoop, hseen, hl]

/-- One iteration on a symlink that has not been seen and whose target cannot be read. -/
theorem fallbackLoop_readlink_error (fs : FileSystem) (isDir : OsFileInfo → Bool)
    (path : String) (n : Nat) (seen : List String) (c rerr : String) (info : OsFileInfo)
    (hseen : c ∉ seen) (hl : fs.Lstat c = .ok info) (hm : info.Mode &&& ModeSymlink ≠ 0)
    (hr : fs.Readlink c = .error rerr) :
    fallbackLoop fs isDir path (n + 1) seen c
      = (⟨c, false, some ("could not read symlink: " ++ c ++ ", " ++ rerr)⟩,
          [Call.seenLookup c, Call.lstat c, Call.readlink c]) := by
  simp [fallbackLoop, hseen, hl, hm, hr]

/-- The calls of `ResolveSymlinks` when `EvalSymlinks` fails. -/
theorem ResolveSymlinks_fallback_calls (fs : FileSystem) (isDir : OsFileInfo → Bool)
    (path e : String) (hprim : fs.EvalSymlinks path = .error e) :
    ResolveSymlinks fs isDir path
      = ((fallbackLoop fs isDir path 64 [] path).1,
          Call.evalSymlinks path :: (fallbackLoop fs isDir path 64 [] path).2) := by
  simp [ResolveSymlinks, hprim]

/-- What an error return of the loop is: the flag is false, and the path returned is the
end `p k` of a chain of `k ≤ n` hops from the current path, where either the `n`
iterations are used up, or `p k` has been seen, or `Lstat` fails on it, or it is a
symlink whose target cannot be read. -/
theorem fallbackLoop_error (fs : FileSystem) (isDir : OsFileInfo → Bool) (path : String) :
    ∀ (n : Nat) (seen : List String) (c : String),
    (fallbackLoop fs isDir path n seen c).1.err ≠ none →
    (fallbackLoop fs isDir path n seen c).1.isDir = false ∧
    ∃ (k : Nat) (p : Nat → String), k ≤ n ∧ p 0 = c ∧
      (∀ i, i < k → SymlinkHop fs (p i) (p (i + 1))) ∧
      (fallbackLoop fs isDir path n seen c).1.path = p k ∧
      ((k = n ∧ (fallbackLoop fs isDir path n seen c).1.err
          = some ("too many symlink hops resolving: " ++ path)) ∨
        (k < n ∧ (p k ∈ seen ∨ ∃ j, j < k ∧ p j = p k) ∧
          (fallbackLoop fs isDir path n seen c).1.err
            = some ("symlink cycle detected at: " ++ p k)) ∨
        (k < n ∧ ∃ lerr, fs.Lstat (p k) = .error lerr ∧
          (fallbackLoop fs isDir path n seen c).1.err
            = some ("could not stat path: " ++ p k ++ ", " ++ lerr)) ∨
        (k < n ∧ ∃ info rerr, fs.Lstat (p k) = .ok info ∧ info.Mode &&& ModeSymlink ≠ 0 ∧
          fs.Readlink (p k) = .error rerr ∧
          (fallbackLoop fs isDir path n seen c).1.err
            = some ("could not read symlink: " ++ p k ++ ", " ++ rerr))) := by
  intro n
  induction n with
  | zero =>
    intro seen c _
    exact ⟨rfl, 0, fun _ => c, Nat.le_refl 0, rfl, fun i hi => absurd hi (Nat.not_lt_zero i),
      rfl, Or.inl ⟨rfl, rfl⟩⟩
  | succ n ih =>
    intro seen c herr
    by_cases hseen : c ∈ seen
    · refine ⟨by simp [fallbackLoop, hseen], 0, fun _ => c, Nat.zero_le _, rfl,
        fun i hi => absurd hi (Nat.not_lt_zero i), by simp [fallbackLoop, hseen],
        Or.inr (Or.inl ⟨Nat.succ_pos n, Or.inl hseen, by simp [fallbackLoop, hseen]⟩)⟩
    · cases hl : fs.Lstat c with
      | error lerr =>
        refine ⟨by simp [fallbackLoop, hseen, hl], 0, fun _ => c, Nat.zero_le _, rfl,
          fun i hi => absurd hi (Nat.not_lt_zero i), by simp [fallbackLoop, hseen, hl],
          Or.inr (Or.inr (Or.inl ⟨Nat.succ_pos n, lerr, hl,
            by simp [fallbackLoop, hseen, hl]⟩))⟩
      | ok info =>
        by_cases hm : info.Mode &&& ModeSymlink = 0
        · simp [fallbackLoop, hseen, hl, hm] at herr
        · cases hr : fs.Readlink c with
          | error rerr =>
            refine ⟨by simp [fallbackLoop, hseen, hl, hm, hr], 0, fun _ => c, Nat.zero_le _,
              rfl, fun i hi => absurd hi (Nat.not_lt_zero i),
              by simp [fallbackLoop, hseen, hl, hm, hr],
              Or.inr (Or.inr (Or.inr ⟨Nat.succ_pos n, info, rerr, hl, hm, hr,
                by simp [fallbackLoop, hseen, hl, hm, hr]⟩))⟩
          | ok target =>
            have hhop : SymlinkHop fs c (Join [Dir c, target]) := ⟨info, target, hl, hm, hr, rfl⟩
            have hstep := fallbackLoop_hop fs isDir path n seen c _ hseen hhop
            rw [hstep] at herr ⊢
            obtain ⟨hflag, k, p, hk, hp0, hhops, hpath, hcase⟩ := ih (c :: seen) _ herr
            have hchain : ∀ i, i < k + 1 →
                SymlinkHop fs ((fun i => match i with | 0 => c | i + 1 => p i) i)
                  ((fun i => match i with | 0 => c | i + 1 => p i) (i + 1)) := by
              intro i hi
              cases i with
              | zero => simpa [hp0] using hhop
              | succ i => exact hhops i (Nat.lt_of_succ_lt_succ hi)
            refine ⟨hflag, k + 1, fun i => match i with | 0 => c | i + 1 => p i,
              Nat.succ_le_succ hk, rfl, hchain, hpath, ?_⟩
            rcases hcase with ⟨h1, h2⟩ | ⟨h1, h2, h3⟩ | ⟨h1, h2⟩ | ⟨h1, h2⟩
            · exact Or.inl ⟨by rw [h1], h2⟩
            · refine Or.inr (Or.inl ⟨Nat.succ_lt_succ h1, ?_, h3⟩)
              rcases h2 with h2 | ⟨j, hj, hjk⟩
              · rcases List.mem_cons.mp h2 with h | h
                · exact Or.inr ⟨0, Nat.succ_pos k, h.symm⟩
                · exact Or.inl h
              · exact Or.inr ⟨j + 1, Nat.succ_lt_succ hj, hjk⟩
            · exact Or.inr (Or.inr (Or.inl ⟨Nat.succ_lt_succ h1, h2⟩))
            · exact Or.inr (Or.inr (Or.inr ⟨Nat.succ_lt_succ h1, h2⟩))

/-- C15. When `EvalSymlinks` fails on the input and `k < 64` hops over pairwise distinct
readable symlinks lead to `p k`: if `Lstat` fails on `p k` the call returns `p k` with the
error `could not stat path:` naming `p k`; if `p k` is a symlink whose target cannot be
read it returns `p k` with the error `could not read symlink:` naming `p k`. In both cases
the failing call is the last call made. -/
theorem ResolveSymlinks_failure_reported (fs : FileSystem) (isDir : OsFileInfo → Bool)
    (path e : String) (p : Nat → String) (k : Nat)
    (hprim : fs.EvalSymlinks path = .error e) (hp0 : p 0 = path) (hk : k < 64)
    (hhop : ∀ i, i < k → SymlinkHop fs (p i) (p (i + 1)))
    (hne : ∀ i j, i < j → j < k → p i ≠ p j) :
    (∀ lerr, fs.Lstat (p k) = .error lerr →
      ResolveSymlinks fs isDir path
        = (⟨p k, false, some ("could not stat path: " ++ p k ++ ", " ++ lerr)⟩,
            Call.evalSymlinks path ::
              (hopCalls p k ++ [Call.seenLookup (p k), Call.lstat (p k)]))) ∧
    (∀ info rerr, fs.Lstat (p k) = .ok info → info.Mode &&& ModeSymlink ≠ 0 →
      fs.Readlink (p k) = .error rerr →
      ResolveSymlinks fs isDir path
        = (⟨p k, false, some ("could not read symlink: " ++ p k ++ ", " ++ rerr)⟩,
            Call.evalSymlinks path ::
              (hopCalls p k ++
                [Call.seenLookup (p k), Call.lstat (p k), Call.readlink (p k)]))) := by
  obtain ⟨seen', hmem, heq⟩ := fallbackLoop_follow_calls fs isDir path k (64 - k) [] p hhop
    (fun i _ => List.not_mem_nil _) hne
  rw [show 64 - k + k = 64 by omega, hp0] at heq
  obtain ⟨m, hm⟩ : ∃ m, 64 - k = m + 1 := ⟨64 - k - 1, by omega⟩
  rw [hm] at heq
  constructor
  · intro lerr hl
    have hnew : p k ∉ seen' := by
      intro hin
      rcases (hmem (p k)).mp hin with h | ⟨i, hi, hx⟩
      · exact List.not_mem_nil _ h
      · obtain ⟨info, _, hli, _, _, _⟩ := hhop i hi
        rw [← hx, hl] at hli
        cases hli
    rw [ResolveSymlinks_fallback_calls fs isDir path e hprim, heq,
      fallbackLoop_lstat_error fs isDir path m seen' (p k) lerr hnew hl]
  · intro info rerr hl hmode hr
    have hnew : p k ∉ seen' := by
      intro hin
      rcases (hmem (p k)).mp hin with h | ⟨i, hi, hx⟩
      · exact List.not_mem_nil _ h
      · obtain ⟨_, _, _, _, hri, _⟩ := hhop i hi
        rw [← hx, hr] at hri
        cases hri
    rw [ResolveSymlinks_fallback_calls fs isDir path e hprim, heq,
      fallbackLoop_readlink_error fs isDir path m seen' (p k) rerr info hnew hl hmode hr]

/-- C15, on the dangling link `/t/l -> nowhere`, whose target cannot be lstat-ed, and on
`/t/a -> b` with the unreadable link `/t/b`. -/
theorem ResolveSymlinks_failure_reported_witness :
    ResolveSymlinks fsDotDot dirBit "/t/l"
      = (⟨"/t/nowhere", false,
            some ("could not stat path: " ++ "/t/nowhere" ++ ", " ++ "no such file or directory")⟩,
          [Call.evalSymlinks "/t/l", Call.seenLookup "/t/l", Call.lstat "/t/l",
            Call.readlink "/t/l", Call.seenLookup "/t/nowhere", Call.lstat "/t/nowhere"]) ∧
    ResolveSymlinks fsUnreadable dirBit "/t/a"
      = (⟨"/t/b", false,
            some ("could not read symlink: " ++ "/t/b" ++ ", " ++ "input/output error")⟩,
          [Call.evalSymlinks "/t/a", Call.seenLookup "/t/a", Call.lstat "/t/a",
            Call.readlink "/t/a", Call.seenLookup "/t/b", Call.lstat "/t/b",
            Call.readlink "/t/b"]) :=
  ⟨(ResolveSymlinks_failure_reported fsDotDot dirBit "/t/l" "no such file or directory"
      danglingPath 1 rfl rfl (by decide)
      (by
        intro i hi
        interval_cases i
        exact ⟨⟨"l", 7, linkMode⟩, "nowhere", rfl, by decide, rfl, by decide⟩)
      (by
        intro i j hij hj
        omega)).1 "no such file or directory" rfl,
    (ResolveSymlinks_failure_reported fsUnreadable dirBit "/t/a" "input/output error"
      unreadablePath 1 rfl rfl (by decide)
      (by
        intro i hi
        interval_cases i
        exact ⟨⟨"a", 1, linkMode⟩, "b", rfl, by decide, rfl, by decide⟩)
      (by
        intro i j hij hj
        omega)).2 ⟨"b", 1, linkMode⟩ "input/output error" rfl (by decide) rfl⟩

/-- C19. Whenever `ResolveSymlinks` returns an error the flag returned is false, so a
true flag comes with success only; and the path returned with an error is the one under
examination: the canonicalized path when its `Lstat` fails, and in the fallback the end
`p k` of the chain of hops followed from the input, which is either the path that was
seen before, or the path whose `Lstat` or `Readlink` failed, or, after 64 hops, the last
path computed. -/
theorem ResolveSymlinks_error_result (fs : FileSystem) (isDir : OsFileInfo → Bool)
    (path : String) :
    ((ResolveSymlinks fs isDir path).1.err ≠ none →
      (ResolveSymlinks fs isDir path).1.isDir = false) ∧
    ((ResolveSymlinks fs isDir path).1.isDir = true →
      (ResolveSymlinks fs isDir path).1.err = none) ∧
    ((ResolveSymlinks fs isDir path).1.err ≠ none →
      (∃ resolved statErr, fs.EvalSymlinks path = .ok resolved ∧
        fs.Lstat resolved = .error statErr ∧
        (ResolveSymlinks fs isDir path).1.path = resolved ∧
        (ResolveSymlinks fs isDir path).1.err
          = some ("could not stat resolved path: " ++ resolved ++ ", " ++ statErr)) ∨
      ((∃ e, fs.EvalSymlinks path = .error e) ∧
        ∃ (k : Nat) (p : Nat → String), k ≤ 64 ∧ p 0 = path ∧
          (∀ i, i < k → SymlinkHop fs (p i) (p (i + 1))) ∧
          (ResolveSymlinks fs isDir path).1.path = p k ∧
          ((k = 64 ∧ (ResolveSymlinks fs isDir path).1.err
              = some ("too many symlink hops resolving: " ++ path)) ∨
            (k < 64 ∧ (∃ j, j < k ∧ p j = p k) ∧
              (ResolveSymlinks fs isDir path).1.err
                = some ("symlink cycle detected at: " ++ p k)) ∨
            (k < 64 ∧ ∃ lerr, fs.Lstat (p k) = .error lerr ∧
              (ResolveSymlinks fs isDir path).1.err
                = some ("could not stat path: " ++ p k ++ ", " ++ lerr)) ∨
            (k < 64 ∧ ∃ info rerr, fs.Lstat (p k) = .ok info ∧
              info.Mode &&& ModeSymlink ≠ 0 ∧ fs.Readlink (p k) = .error rerr ∧
              (ResolveSymlinks fs isDir path).1.err
                = some ("could not read symlink: " ++ p k ++ ", " ++ rerr))))) := by
  have hflag : (ResolveSymlinks fs isDir path).1.err ≠ none →
      (ResolveSymlinks fs isDir path).1.isDir = false := by
    cases hprim : fs.EvalSymlinks path with
    | ok resolved =>
      cases hl : fs.Lstat resolved <;> simp [ResolveSymlinks, hprim, hl]
    | error e =>
      rw [ResolveSymlinks_fallback fs isDir path e hprim]
      intro herr
      exact (fallbackLoop_error fs isDir path 64 [] path herr).1
  refine ⟨hflag, ?_, ?_⟩
  · intro htrue
    by_contra herr
    rw [hflag herr] at htrue
    exact absurd htrue (by simp)
  · cases hprim : fs.EvalSymlinks path with
    | ok resolved =>
      cases hl : fs.Lstat resolved with
      | ok info => simp [ResolveSymlinks, hprim, hl]
      | error statErr =>
        intro _
        exact Or.inl ⟨resolved, statErr, rfl, hl, by simp [ResolveSymlinks, hprim, hl],
          by simp [ResolveSymlinks, hprim, hl]⟩
    | error e =>
      rw [ResolveSymlinks_fallback fs isDir path e hprim]
      intro herr
      obtain ⟨_, k, p, hk, hp0, hhops, hpath, hcase⟩ :=
        fallbackLoop_error fs isDir path 64 [] path herr
      refine Or.inr ⟨⟨e, rfl⟩, k, p, hk, hp0, hhops, hpath, ?_⟩
      rcases hcase with h | ⟨h1, h2, h3⟩ | h | h
      · exact Or.inl h
      · refine Or.inr (Or.inl ⟨h1, ?_, h3⟩)
        rcases h2 with h2 | h2
        · exact absurd h2 (List.not_mem_nil _)
        · exact h2
      · exact Or.inr (Or.inr (Or.inl h))
      · exact Or.inr (Or.inr (Or.inr h))

/-- C19, on the error results of the cycle, of the dangling link, of the unreadable link
and of the chain of 64 links: each has the flag false and the path of the failure. -/
theorem ResolveSymlinks_error_result_witness :
    (ResolveSymlinks fsCycle dirBit "/tmp/a").1.isDir = false ∧
    (ResolveSymlinks fsCycle dirBit "/tmp/a").1.path = "/tmp/a" ∧
    (ResolveSymlinks fsDotDot dirBit "/t/l").1.path = "/t/nowhere" ∧
    (ResolveSymlinks fsUnreadable dirBit "/t/a").1.path = "/t/b" ∧
    (ResolveSymlinks (fsChain 100) dirBit "/l").1.path = chainPath 64 ∧
    (ResolveSymlinks (fsChain 100) dirBit "/l").1.isDir = false :=
  ⟨(ResolveSymlinks_error_result fsCycle dirBit "/tmp/a").1 (by decide),
    by decide, by decide, by decide, by decide,
    (ResolveSymlinks_error_result (fsChain 100) dirBit "/l").1 (by decide)⟩

/-! ## Stability -/

/-- Where `insertBack` puts `x`: behind a front part `s` of the reversed prefix, all of
whose elements `x` is less than. -/
theorem insertBack_split (lt : ItemInfo → ItemInfo → Bool) (x : ItemInfo) :
    ∀ rev : List ItemInfo, ∃ s r, rev = s ++ r ∧ insertBack lt x rev = s ++ x :: r ∧
      ∀ y ∈ s, lt x y = true
  | [] => ⟨[], [], rfl, rfl, fun _ h => absurd h (List.not_mem_nil _)⟩
  | y :: rev => by
    unfold insertBack
    by_cases h : lt x y = true
    · obtain ⟨s, r, h1, h2, h3⟩ := insertBack_split lt x rev
      refine ⟨y :: s, r, by rw [h1, List.cons_append], by rw [if_pos h, h2, List.cons_append], ?_⟩
      intro z hz
      rcases List.mem_cons.mp hz with hz | hz
      · rw [hz]; exact h
      · exact h3 z hz
    · exact ⟨[], y :: rev, rfl, by rw [if_neg h, List.nil_append],
        fun _ hz => absurd hz (List.not_mem_nil _)⟩

/-- The insertion sort never moves an element in front of an earlier one that it is not
less than. `done` is the part of the slice already inserted and `acc` the result for it,
last element first. -/
theorem foldl_insertBack_stable (lt : ItemInfo → ItemInfo → Bool) :
    ∀ (xs done acc : List ItemInfo),
      (∀ a, a ∈ done → a ∈ acc) →
      (∀ a b, List.Sublist [a, b] done → lt b a = false → List.Sublist [b, a] acc) →
      ∀ a b, List.Sublist [a, b] (done ++ xs) → lt b a = false →
        List.Sublist [b, a] (xs.foldl (fun rev x => insertBack lt x rev) acc)
  | [], done, acc, _, hinv => by
    intro a b hab hlt
    rw [List.append_nil] at hab
    exact hinv a b hab hlt
  | x :: xs, done, acc, hmem, hinv => by
    intro a b hab hlt
    rw [List.foldl_cons]
    obtain ⟨s, r, hacc, hins, hs⟩ := insertBack_split lt x acc
    have hsub : List.Sublist acc (insertBack lt x acc) := by
      rw [hins, hacc]
      exact List.Sublist.append (List.Sublist.refl s) (List.sublist_cons_self x r)
    refine foldl_insertBack_stable lt xs (done ++ [x]) (insertBack lt x acc) ?_ ?_ a b
      (by rw [List.append_assoc]; exact hab) hlt
    · intro c hc
      rcases List.mem_append.mp hc with hc | hc
      · exact hsub.subset (hmem c hc)
      · rw [List.mem_singleton.mp hc, hins]
        exact List.mem_append_right s (List.mem_cons_self x r)
    · intro c d hcd hdc
      obtain ⟨l1, l2, hsplit, h1, h2⟩ := List.sublist_append_iff.mp hcd
      cases l1 with
      | nil =>
        rw [List.nil_append] at hsplit
        rw [← hsplit] at h2
        exact absurd h2.length_le (by simp)
      | cons c' l1 =>
        cases l1 with
        | nil =>
          simp only [List.cons_append, List.nil_append, List.cons.injEq] at hsplit
          obtain ⟨hc', hl2⟩ := hsplit
          rw [← hl2] at h2
          rw [← hc'] at h1
          have hd : d = x := List.mem_singleton.mp (List.singleton_sublist.mp h2)
          have hcacc : c ∈ acc := hmem c (List.singleton_sublist.mp h1)
          rw [hd] at hdc ⊢
          have hcr : c ∈ r := by
            rw [hacc] at hcacc
            rcases List.mem_append.mp hcacc with h | h
            · rw [hs c h] at hdc
              exact absurd hdc (by simp)
            · exact h
          rw [hins]
          exact (List.cons_sublist_cons.mpr (List.singleton_sublist.mpr hcr)).trans
            (List.sublist_append_right s (x :: r))
        | cons d' l1 =>
          cases l1 with
          | nil =>
            simp only [List.cons_append, List.nil_append, List.cons.injEq] at hsplit
            obtain ⟨hc', hd', _⟩ := hsplit
            rw [← hc', ← hd'] at h1
            exact (hinv c d h1 hdc).trans hsub
          | cons _ _ =>
            simp at hsplit

/-- The insertion sort is stable: an element stays behind every earlier element that it
is not less than. -/
theorem insertionSort_stable (lt : ItemInfo → ItemInfo → Bool) (xs : List ItemInfo)
    (a b : ItemInfo) (hab : List.Sublist [a, b] xs) (hlt : lt b a = false) :
    List.Sublist [a, b] (insertionSort xs lt) := by
  unfold insertionSort
  have h := foldl_insertBack_stable lt xs [] []
    (fun _ h => absurd h (List.not_mem_nil _))
    (fun _ _ h _ => absurd h.length_le (by simp)) a b (by rw [List.nil_append]; exact hab) hlt
  have := List.reverse_sublist.mpr h
  simpa using this

/-- On a slice of at most 12 elements `sort.Slice` is the insertion sort. -/
theorem Slice_short (x : List ItemInfo) (lt : ItemInfo → ItemInfo → Bool)
    (h : x.length ≤ 12) : Slice x lt = insertionSort x lt := by
  simp [Slice, pdqsort, h, insertionSortRange]

/-- C12 fails as stated: of thirteen files, twelve named `1.a` to `1.l` that are ties of
one another and last `0.z`, `sort.Slice` leaves `1.g` in front of `1.a`, which stood
before it. -/
theorem SortItems_reorders_ties :
    pdqsort (less asciiLower) 14 (tiedNames.map named) 0 13 4 true true
      = some (["0.z", "1.g", "1.c", "1.d", "1.e", "1.f", "1.a", "1.h", "1.i", "1.j", "1.k",
          "1.l", "1.b"].map named) ∧
    (SortItems Slice asciiLower ⟨"/", [], tiedNames.map named⟩).Files
      = ["0.z", "1.g", "1.c", "1.d", "1.e", "1.f", "1.a", "1.h", "1.i", "1.j", "1.k",
          "1.l", "1.b"].map named ∧
    less asciiLower (named "1.a") (named "1.g") = false ∧
    less asciiLower (named "1.g") (named "1.a") = false ∧
    List.Sublist [named "1.a", named "1.g"] (tiedNames.map named) ∧
    ¬ List.Sublist [named "1.a", named "1.g"]
      (SortItems Slice asciiLower ⟨"/", [], tiedNames.map named⟩).Files := by
  refine ⟨by decide, by decide, by decide, by decide, by decide, by decide⟩

/-- C12, amended. In a sequence of at most 12 entries, which `sort.Slice` sorts by
insertion, an entry `b` that stands behind an entry `a` and that the comparator does not
put before `a`, as when the two are a tie, stands behind `a` after `SortItems` as well;
this holds for `Files` and for `Folders`. -/
theorem SortItems_stable_short (lowerRune : Char → Char) (info : FileInfo) :
    (info.Files.length ≤ 12 → ∀ a b, List.Sublist [a, b] info.Files →
      less lowerRune b a = false →
      List.Sublist [a, b] (SortItems Slice lowerRune info).Files) ∧
    (info.Folders.length ≤ 12 → ∀ a b, List.Sublist [a, b] info.Folders →
      less lowerRune b a = false →
      List.Sublist [a, b] (SortItems Slice lowerRune info).Folders) := by
  constructor
  · intro hlen a b hab hlt
    show List.Sublist [a, b] (Slice info.Files (less lowerRune))
    rw [Slice_short _ _ hlen]
    exact insertionSort_stable _ _ a b hab hlt
  · intro hlen a b hab hlt
    show List.Sublist [a, b] (Slice info.Folders (less lowerRune))
    rw [Slice_short _ _ hlen]
    exact insertionSort_stable _ _ a b hab hlt

/-- C12, amended, on `b.txt`, `a.txt`, `A.TXT`: the two names that are equal but for the
case keep their order. -/
theorem SortItems_stable_short_witness :
    (SortItems Slice asciiLower ⟨"/", [], [named "b.txt", named "a.txt", named "A.TXT"]⟩).Files
      = [named "a.txt", named "A.TXT", named "b.txt"] ∧
    List.Sublist [named "a.txt", named "A.TXT"]
      (SortItems Slice asciiLower
        ⟨"/", [], [named "b.txt", named "a.txt", named "A.TXT"]⟩).Files :=
  ⟨by decide,
    (SortItems_stable_short asciiLower
      ⟨"/", [], [named "b.txt", named "a.txt", named "A.TXT"]⟩).1 (by decide)
      (named "a.txt") (named "A.TXT") (by decide) (by decide)⟩

/-! ## The comparator on names of one kind -/

theorem stringLess_cons (a b : Char) (as bs : List Char) :
    stringLess (a :: as) (b :: bs) = true ↔
      a.toNat < b.toNat ∨ (a.toNat = b.toNat ∧ stringLess as bs = true) := by
  have hdef : stringLess (a :: as) (b :: bs)
      = if a.toNat < b.toNat then true
        else if b.toNat < a.toNat then false else stringLess as bs := by
    rw [stringLess]
  rw [hdef]
  by_cases h1 : a.toNat < b.toNat
  · simp [h1]
  · by_cases h2 : b.toNat < a.toNat
    · simp only [h1, h2, if_false, if_true, false_or]
      constructor
      · intro h; exact absurd h (by simp)
      · intro h; omega
    · simp only [h1, h2, if_false, false_or]
      constructor
      · intro h; exact ⟨by omega, h⟩
      · intro h; exact h.2

theorem stringLess_trans : ∀ a b c : List Char,
    stringLess a b = true → stringLess b c = true → stringLess a c = true
  | [], [], _, h1, _ => by simp [stringLess] at h1
  | _ :: _, [], _, h1, _ => by simp [stringLess] at h1
  | _, _ :: _, [], _, h2 => by simp [stringLess] at h2
  | [], _ :: _, _ :: _, _, _ => rfl
  | a :: as, b :: bs, c :: cs, h1, h2 => by
    rw [stringLess_cons] at h1 h2 ⊢
    rcases h1 with h1 | ⟨h1, h1'⟩
    · rcases h2 with h2 | ⟨h2, _⟩
      · exact Or.inl (by omega)
      · exact Or.inl (by omega)
    · rcases h2 with h2 | ⟨h2, h2'⟩
      · exact Or.inl (by omega)
      · exact Or.inr ⟨by omega, stringLess_trans as bs cs h1' h2'⟩

/-- Two strings neither of which is less than the other are the same string. -/
theorem stringLess_total : ∀ a b : List Char,
    stringLess a b = false → stringLess b a = false → a = b
  | [], [], _, _ => rfl
  | [], _ :: _, h1, _ => by simp [stringLess] at h1
  | _ :: _, [], _, h2 => by simp [stringLess] at h2
  | a :: as, b :: bs, h1, h2 => by
    have h1' : ¬ (a.toNat < b.toNat ∨ (a.toNat = b.toNat ∧ stringLess as bs = true)) := by
      rw [← stringLess_cons, h1]; simp
    have h2' : ¬ (b.toNat < a.toNat ∨ (b.toNat = a.toNat ∧ stringLess bs as = true)) := by
      rw [← stringLess_cons, h2]; simp
    have hab : ¬ a.toNat < b.toNat := fun h => h1' (Or.inl h)
    have hba : ¬ b.toNat < a.toNat := fun h => h2' (Or.inl h)
    have heq : a.toNat = b.toNat := by omega
    have t1 : stringLess as bs = false := by
      cases h : stringLess as bs with
      | false => rfl
      | true => exact absurd (Or.inr ⟨heq, h⟩) h1'
    have t2 : stringLess bs as = false := by
      cases h : stringLess bs as with
      | false => rfl
      | true => exact absurd (Or.inr ⟨heq.symm, h⟩) h2'
    rw [Char_eq_of_toNat a b hab hba, stringLess_total as bs t1 t2]

/-- When a string is not less than a second and the second not less than a third, the
first is not less than the third. -/
theorem stringLess_neg_trans (a b c : List Char)
    (h1 : stringLess a b = false) (h2 : stringLess b c = false) : stringLess a c = false := by
  cases hac : stringLess a c with
  | false => rfl
  | true =>
    cases hba : stringLess b a with
    | true =>
      rw [stringLess_trans b a c hba hac] at h2
      exact absurd h2 (by simp)
    | false =>
      rw [stringLess_total a b h1 hba] at hac
      rw [hac] at h2
      exact absurd h2 (by simp)

/-- On entries whose keys are all parsed by `Atoi` the comparator is a strict weak
ordering. -/
theorem less_strictWeak_numeric (lowerRune : Char → Char) (xs : List ItemInfo)
    (hnum : ∀ e ∈ xs, ∃ n, Atoi (nameWithoutExt e.Name) = some n) :
    StrictWeakOn (less lowerRune) xs := by
  refine ⟨?_, ?_, ?_⟩
  · intro a ha
    obtain ⟨x, hx⟩ := hnum a ha
    rw [less_numeric lowerRune a a x x hx hx]
    simp
  · intro a ha b hb c hc
    obtain ⟨x, hx⟩ := hnum a ha
    obtain ⟨y, hy⟩ := hnum b hb
    obtain ⟨z, hz⟩ := hnum c hc
    rw [less_numeric lowerRune a b x y hx hy, less_numeric lowerRune b c y z hy hz,
      less_numeric lowerRune a c x z hx hz]
    simp only [decide_eq_true_eq]
    exact fun h1 h2 => lt_trans h1 h2
  · intro a ha b hb c hc
    obtain ⟨x, hx⟩ := hnum a ha
    obtain ⟨y, hy⟩ := hnum b hb
    obtain ⟨z, hz⟩ := hnum c hc
    rw [less_numeric lowerRune a b x y hx hy, less_numeric lowerRune b c y z hy hz,
      less_numeric lowerRune a c x z hx hz]
    simp only [decide_eq_false_iff_not, not_lt]
    exact fun h1 h2 => le_trans h2 h1

/-- On entries none of whose keys is parsed by `Atoi` the comparator is a strict weak
ordering. -/
theorem less_strictWeak_lexical (lowerRune : Char → Char) (xs : List ItemInfo)
    (hlex : ∀ e ∈ xs, Atoi (nameWithoutExt e.Name) = none) :
    StrictWeakOn (less lowerRune) xs := by
  refine ⟨?_, ?_, ?_⟩
  · intro a ha
    rw [less_lexical lowerRune a a (Or.inl (hlex a ha))]
    exact stringLess_irrefl _
  · intro a ha b hb c _
    rw [less_lexical lowerRune a b (Or.inl (hlex a ha)),
      less_lexical lowerRune b c (Or.inl (hlex b hb)),
      less_lexical lowerRune a c (Or.inl (hlex a ha))]
    exact stringLess_trans _ _ _
  · intro a ha b hb c _
    rw [less_lexical lowerRune a b (Or.inl (hlex a ha)),
      less_lexical lowerRune b c (Or.inl (hlex b hb)),
      less_lexical lowerRune a c (Or.inl (hlex a ha))]
    exact stringLess_neg_trans _ _ _

/-- C4, amended. The comparator puts no name before itself; and on every set of entries
whose keys are all parsed by `Atoi`, and on every set of entries none of whose keys is,
it is a strict weak order: irreflexive, transitive, and with a transitive relation
`neither sorts before the other`. -/
theorem less_strict_weak_unmixed (lowerRune : Char → Char) :
    (∀ a : ItemInfo, less lowerRune a a = false) ∧
    (∀ xs : List ItemInfo,
      ((∀ e ∈ xs, ∃ n, Atoi (nameWithoutExt e.Name) = some n) ∨
        (∀ e ∈ xs, Atoi (nameWithoutExt e.Name) = none)) →
      StrictWeakOn (less lowerRune) xs ∧
      (∀ a ∈ xs, ∀ b ∈ xs, ∀ c ∈ xs,
        less lowerRune a b = true → less lowerRune b c = true → less lowerRune a c = true) ∧
      (∀ a ∈ xs, ∀ b ∈ xs, ∀ c ∈ xs,
        (less lowerRune a b = false ∧ less lowerRune b a = false) →
        (less lowerRune b c = false ∧ less lowerRune c b = false) →
        (less lowerRune a c = false ∧ less lowerRune c a = false))) := by
  constructor
  · intro a
    cases ha : Atoi (nameWithoutExt a.Name) with
    | none =>
      rw [less_lexical lowerRune a a (Or.inl ha)]
      exact stringLess_irrefl _
    | some x =>
      rw [less_numeric lowerRune a a x x ha ha]
      simp
  · intro xs hkind
    have hswo : StrictWeakOn (less lowerRune) xs := by
      rcases hkind with h | h
      · exact less_strictWeak_numeric lowerRune xs h
      · exact less_strictWeak_lexical lowerRune xs h
    refine ⟨hswo, hswo.2.1, ?_⟩
    intro a ha b hb c hc hab hbc
    exact ⟨hswo.2.2 a ha b hb c hc hab.1 hbc.1, hswo.2.2 c hc b hb a ha hbc.2 hab.2⟩

/-- C4, amended, on the numeric names `10.mp4`, `2.mp4`, `02.srt` and on the names
`b.txt`, `A.txt`, `a.TXT`, none of which has a numeric key. -/
theorem less_strict_weak_unmixed_witness :
    StrictWeakOn (less asciiLower) [named "10.mp4", named "2.mp4", named "02.srt"] ∧
    StrictWeakOn (less asciiLower) [named "b.txt", named "A.txt", named "a.TXT"] ∧
    (less asciiLower (named "2.mp4") (named "02.srt") = false ∧
      less asciiLower (named "02.srt") (named "2.mp4") = false) ∧
    (less asciiLower (named "A.txt") (named "a.TXT") = false ∧
      less asciiLower (named "a.TXT") (named "A.txt") = false) :=
  ⟨((less_strict_weak_unmixed asciiLower).2 [named "10.mp4", named "2.mp4", named "02.srt"]
      (Or.inl (by
        intro e he
        simp only [List.mem_cons, List.mem_singleton, List.not_mem_nil, or_false] at he
        rcases he with h | h | h
        · exact ⟨10, by rw [h]; decide⟩
        · exact ⟨2, by rw [h]; decide⟩
        · exact ⟨2, by rw [h]; decide⟩))).1,
    ((less_strict_weak_unmixed asciiLower).2 [named "b.txt", named "A.txt", named "a.TXT"]
      (Or.inr (by
        intro e he
        simp only [List.mem_cons, List.mem_singleton, List.not_mem_nil, or_false] at he
        rcases he with h | h | h
        · rw [h]; decide
        · rw [h]; decide
        · rw [h]; decide))).1,
    by decide, by decide⟩

end iteminfo
